import Mathlib

/-!
Verification of the keydra AWS IAM provider (`src/keydra/providers/aws_iam.py`).

This file gives a shallow embedding of the provider's business logic:

* access-key candidate selection (`_pick_best_candidate`),
* user provisioning (`_create_user_if_not_available`),
* group and policy reconciliation (`_update_user_group_membership`,
  `_update_user_policies`),
* the whole rotation flow (`rotate`) over an explicit oracle describing the
  responses and failures of the IAM / STS service,
* `validate_spec`, `redact_result` and `distribute`.

Service calls are modelled through an `Oracle` structure: each call either
succeeds with the data carried by the oracle or raises `ClientError`
(modelled as `Except.error ()`).  Mutating calls are recorded in an `Action`
trace so that theorems can speak about which calls a run issues and in which
order.
-/

set_option autoImplicit false

namespace KeydraIam

/-- Access-key record as returned by `list_access_keys` and annotated by
`_pick_best_candidate` with the `last_used` timestamp (a `LastUsedDate`, here
abstracted to `Option Nat`; `none` models a key with no usage data).  The
`CreateDate` field of the AWS record is never read by this module and is
omitted. -/
structure AccessKey where
  accessKeyId : String
  userName : String
  status : String
  lastUsed : Option Nat
deriving Repr, DecidableEq

/-- The loop of `_pick_best_candidate` (aws_iam.py lines 77-98) over keys whose
`last_used` annotation is already present, carrying the current candidate.

Source loop body, per key:
* `if key['Status'] != 'Active'`: the key is returned immediately (`break`);
* `if candidate is None: candidate = key` — afterwards the comparison of the
  key with itself cannot change the candidate, so we recurse with `some k`;
* `if key['last_used'] is None or candidate['last_used'] is None: continue`;
* `if key['last_used'] < candidate['last_used']: candidate = key`. -/
def pick_loop : List AccessKey → Option AccessKey → Option AccessKey
  | [], cand => cand
  | k :: rest, cand =>
    if k.status ≠ "Active" then some k
    else
      match cand with
      | none => pick_loop rest (some k)
      | some c =>
        match k.lastUsed, c.lastUsed with
        | some lk, some lc =>
          if lk < lc then pick_loop rest (some k) else pick_loop rest (some c)
        | _, _ => pick_loop rest (some c)

/-- `_pick_best_candidate` on the values of `keys_by_id`, in insertion order,
with `last_used` already annotated (the pure content of lines 71-107). -/
def pick_best_candidate (keys : List AccessKey) : Option AccessKey :=
  pick_loop keys none

/-- `config.groups` may be a list or a scalar group name
(`_update_user_group_membership` lines 175-176 normalizes the scalar). -/
inductive GroupsVal where
  | scalar (g : String)
  | list (gs : List String)
deriving Repr, DecidableEq

/-- The `config` block of a secret descriptor, as consumed by `rotate`:
`tags : map<string,string>` (entries in insertion order), `groups`,
`policies`.  An absent option is `none`; a present-but-empty `tags` dict is
falsy in Python and behaves exactly like an absent one, which `some []`
also models. -/
structure Config where
  tags : Option (List (String × String)) := none
  groups : Option GroupsVal := none
  policies : Option (List String) := none
deriving Repr, DecidableEq

/-- Secret descriptor: `{key: <iam username>, config?: {...}}`. -/
structure Secret where
  key : String
  config : Option Config := none
deriving Repr, DecidableEq

/-- `secret.get('config', {}).get('groups', [])` (rotate, line 321). -/
def get_groups (s : Secret) : GroupsVal :=
  match s.config with
  | none => GroupsVal.list []
  | some c => c.groups.getD (GroupsVal.list [])

/-- `secret.get('config', {}).get('policies', [])` (rotate, lines 324-325). -/
def get_policies (s : Secret) : List String :=
  match s.config with
  | none => []
  | some c => c.policies.getD []

/-- The entries appended from `options.get('tags')`
(`_create_user_if_not_available` lines 148-150); an absent or empty tags
dict contributes nothing. -/
def config_tags (options : Option Config) : List (String × String) :=
  match options with
  | none => []
  | some c => c.tags.getD []

/-- `expected_tags`: `{'Key': 'managedby', 'Value': 'keydra'}` followed by the
entries of `config.tags` (lines 143-150); a tag dict is modelled as a
`(Key, Value)` pair. -/
def expected_tags (options : Option Config) : List (String × String) :=
  ("managedby", "keydra") :: config_tags options

/-- Responses and failure behaviour of the IAM / STS service for one `rotate`
run.  A `...Ok` flag set to `false` means the corresponding call raises
`ClientError`.  `keys` is the `AccessKeyMetadata` returned by
`list_access_keys` (its `lastUsed` fields are irrelevant: the loop of
`_pick_best_candidate` overwrites them via `lastUsedVal`). -/
structure Oracle where
  /-- `get_user` raises `ClientError` (e.g. the user does not exist). -/
  getUserFails : Bool
  /-- `existing_user['User'].get('Tags')`; `none` models an absent field. -/
  currentTags : Option (List (String × String))
  tagUserOk : Bool
  createUserOk : Bool
  listKeysOk : Bool
  keys : List AccessKey
  /-- whether `get_access_key_last_used` succeeds for a given key id. -/
  lastUsedOk : String → Bool
  /-- `['AccessKeyLastUsed'].get('LastUsedDate')` for a given key id. -/
  lastUsedVal : String → Option Nat
  deleteKeyOk : Bool
  updateKeyOk : Bool
  /-- `sts.get_caller_identity` (used lazily by `_make_policy_arn`). -/
  stsOk : Bool
  accountId : String
  createKeyOk : Bool
  newKeyId : String
  newSecret : String
  listGroupsOk : Bool
  currentGroups : List String
  removeGroupOk : String → Bool
  addGroupOk : String → Bool
  listPoliciesOk : Bool
  currentPolicyArns : List String
  attachPolicyOk : String → Bool
  detachPolicyOk : String → Bool

/-- One mutating service call issued during a run (read-only calls such as
`get_user`, `list_access_keys` or `list_groups_for_user` are not traced). -/
inductive Action where
  | createUser (name : String) (tags : List (String × String))
  | tagUser (name : String) (tags : List (String × String))
  | deleteKey (user keyId : String)
  | updateKey (user keyId status : String)
  | createKey (user : String)
  | removeFromGroup (user group : String)
  | addToGroup (user group : String)
  | attachPolicy (arn user : String)
  | detachPolicy (arn user : String)
deriving Repr, DecidableEq

/-- Key-lifecycle calls (delete / update-status / create access key). -/
def Action.isKeyLifecycle : Action → Bool
  | Action.deleteKey _ _ => true
  | Action.updateKey _ _ _ => true
  | Action.createKey _ => true
  | _ => false

/-- `_create_user_if_not_available` (lines 142-172).  The `try` block looks the
user up and re-tags it when its current tags differ (as ordered lists) from
`expected_tags`; any `ClientError` inside the block — from `get_user` or from
`tag_user` — is caught with a warning and falls through to `create_user`,
whose own failure propagates. -/
def create_user_if_not_available (o : Oracle) (iam_user : String)
    (options : Option Config) : Except Unit (List Action) :=
  let exp := expected_tags options
  if o.getUserFails then
    if o.createUserOk then Except.ok [Action.createUser iam_user exp]
    else Except.error ()
  else
    if o.currentTags ≠ some exp then
      if o.tagUserOk then Except.ok [Action.tagUser iam_user exp]
      else
        -- tag_user raised ClientError: caught, then create_user is attempted
        if o.createUserOk then
          Except.ok [Action.tagUser iam_user exp, Action.createUser iam_user exp]
        else Except.error ()
    else Except.ok []

/-- `key['last_used'] = get_access_key_last_used(...)` (lines 78-80). -/
def annotate (o : Oracle) (k : AccessKey) : AccessKey :=
  { k with lastUsed := o.lastUsedVal k.accessKeyId }

/-- Effectful `_pick_best_candidate` loop: each iteration first fetches the
key's `last_used` (which can raise `ClientError` and abort the rotation) and
then runs the selection logic of `pick_loop`. -/
def pick_best_candidateE (o : Oracle) :
    List AccessKey → Option AccessKey → Except Unit (Option AccessKey)
  | [], cand => Except.ok cand
  | k :: rest, cand =>
    if o.lastUsedOk k.accessKeyId then
      let k2 := annotate o k
      if k2.status ≠ "Active" then Except.ok (some k2)
      else
        match cand with
        | none => pick_best_candidateE o rest (some k2)
        | some c =>
          match k2.lastUsed, c.lastUsed with
          | some lk, some lc =>
            if lk < lc then pick_best_candidateE o rest (some k2)
            else pick_best_candidateE o rest (some c)
          | _, _ => pick_best_candidateE o rest (some c)
    else Except.error ()

/-- Whether the `last_used` fetches performed by `_pick_best_candidate` all
succeed: the loop fetches key by key and stops at the first non-Active key. -/
def scan_ok (o : Oracle) : List AccessKey → Bool
  | [] => true
  | k :: rest =>
    o.lastUsedOk k.accessKeyId &&
      (if k.status ≠ "Active" then true else scan_ok o rest)

/-- The `len(keys_by_id) > 1` block of `rotate` (lines 299-308): pick a
candidate, delete it (`r_candidate['UserName']` / `['AccessKeyId']`) and pop
it from `keys_by_id`.  Returns the delete action issued and the remaining
keys. -/
def delete_stage (o : Oracle) (keys : List AccessKey) :
    Except Unit (List Action × List AccessKey) :=
  if 1 < keys.length then
    match pick_best_candidateE o keys none with
    | Except.error e => Except.error e
    | Except.ok none => Except.ok ([], keys)
    | Except.ok (some c) =>
      if o.deleteKeyOk then
        Except.ok ([Action.deleteKey c.userName c.accessKeyId],
          keys.filter (fun x => x.accessKeyId ≠ c.accessKeyId))
      else Except.error ()
  else Except.ok ([], keys)

/-- The `len(keys_by_id) == 1` block of `rotate` (lines 311-318): mark the
single remaining key Inactive. -/
def deactivate_stage (o : Oracle) (keys : List AccessKey) :
    Except Unit (List Action) :=
  match keys with
  | [r] =>
    if o.updateKeyOk then
      Except.ok [Action.updateKey r.userName r.accessKeyId "Inactive"]
    else Except.error ()
  | _ => Except.ok []

/-- `remove_user_from_group` wrapped in `try/except ClientError`
(lines 196-212): the call is always attempted; a failure is only logged. -/
def try_remove_from_group (o : Oracle) (user group : String) : Action :=
  match (if o.removeGroupOk group then Except.ok () else Except.error ()
      : Except Unit Unit) with
  | Except.ok _ => Action.removeFromGroup user group
  | Except.error _ => Action.removeFromGroup user group

/-- `add_user_to_group` wrapped in `try/except ClientError` (lines 214-231). -/
def try_add_to_group (o : Oracle) (user group : String) : Action :=
  match (if o.addGroupOk group then Except.ok () else Except.error ()
      : Except Unit Unit) with
  | Except.ok _ => Action.addToGroup user group
  | Except.error _ => Action.addToGroup user group

/-- `_update_user_group_membership` (lines 174-231).  A scalar `groups` value
is wrapped into a one-element list; `set(...)` is modelled by `dedup`; a
failing `list_groups_for_user` is caught and skips the whole reconciliation;
each remove/add is attempted independently.  Removals iterate over
`group_set - rightful_groups`, additions over `group_set - current_groups`,
where `group_set = current_groups | rightful_groups`. -/
def update_user_group_membership (o : Oracle) (iam_user : String)
    (groups : GroupsVal) : List Action :=
  let glist := match groups with
    | GroupsVal.scalar g => [g]
    | GroupsVal.list gs => gs
  let rightful := glist.dedup
  if o.listGroupsOk then
    let current := o.currentGroups.dedup
    let groupSet := (current ++ rightful).dedup
    (groupSet.filter (fun g => !(rightful.contains g))).map
        (fun g => try_remove_from_group o iam_user g)
      ++ (groupSet.filter (fun g => !(current.contains g))).map
        (fun g => try_add_to_group o iam_user g)
  else []

/-- `_make_policy_arn` (lines 233-234). -/
def make_policy_arn (accountId policy_name : String) : String :=
  "arn:aws:iam::" ++ accountId ++ ":policy/" ++ policy_name

/-- `_attach_policy_to_user` with its internal `try/except` (lines 248-258). -/
def try_attach_policy (o : Oracle) (policy_arn user : String) : Action :=
  match (if o.attachPolicyOk policy_arn then Except.ok () else Except.error ()
      : Except Unit Unit) with
  | Except.ok _ => Action.attachPolicy policy_arn user
  | Except.error _ => Action.attachPolicy policy_arn user

/-- `_detach_policy_from_user` with its internal `try/except`
(lines 236-246). -/
def try_detach_policy (o : Oracle) (policy_arn user : String) : Action :=
  match (if o.detachPolicyOk policy_arn then Except.ok () else Except.error ()
      : Except Unit Unit) with
  | Except.ok _ => Action.detachPolicy policy_arn user
  | Except.error _ => Action.detachPolicy policy_arn user

/-- `_update_user_policies` (lines 260-288).  Building
`expected_policy_arns` calls `_make_policy_arn` once per configured policy;
the first call performs the (cached) `sts.get_caller_identity` lookup, which
can raise `ClientError` and is not caught locally — unless the configured set
is empty, in which case no ARN is built.  A failing
`list_attached_user_policies` is caught and skips reconciliation.
Attachments iterate over `union - current`, detachments over
`union - expected`. -/
def update_user_policies (o : Oracle) (username : String)
    (policies : List String) : Except Unit (List Action) :=
  if !policies.isEmpty && !o.stsOk then Except.error ()
  else
    let expectedArns := policies.dedup.map (make_policy_arn o.accountId)
    if o.listPoliciesOk then
      let current := o.currentPolicyArns.dedup
      let unionArns := (expectedArns ++ current).dedup
      Except.ok
        ((unionArns.filter (fun a => !(current.contains a))).map
            (fun a => try_attach_policy o a username)
          ++ (unionArns.filter (fun a => !(expectedArns.contains a))).map
            (fun a => try_detach_policy o a username))
    else Except.ok []

/-- The result envelope built by `_explain_secret` (lines 23-28). -/
structure RotResult where
  provider : String
  key : String
  secretValue : String
deriving Repr, DecidableEq

/-- `rotate` (lines 290-330): user provisioning, key listing, candidate
deletion, deactivation of the last remaining key, group and policy
reconciliation, creation of the new key.  Any `ClientError` escaping these
steps is caught by the surrounding `except ClientError` and re-raised as
`RotationException`, modelled as `Except.error ()`.  On success it returns
the trace of mutating calls in order, together with the
`_explain_secret` envelope of the new key. -/
def rotate (o : Oracle) (s : Secret) : Except Unit (List Action × RotResult) :=
  match create_user_if_not_available o s.key s.config with
  | Except.error e => Except.error e
  | Except.ok provActs =>
    if o.listKeysOk then
      match delete_stage o o.keys with
      | Except.error e => Except.error e
      | Except.ok (delActs, keysAfter) =>
        match deactivate_stage o keysAfter with
        | Except.error e => Except.error e
        | Except.ok updActs =>
          let groupActs := update_user_group_membership o s.key (get_groups s)
          match update_user_policies o s.key (get_policies s) with
          | Except.error e => Except.error e
          | Except.ok polActs =>
            if o.createKeyOk then
              Except.ok (provActs ++ delActs ++ updActs ++ groupActs
                  ++ polActs ++ [Action.createKey s.key],
                ⟨"iam", o.newKeyId, o.newSecret⟩)
            else Except.error ()
    else Except.error ()

/-- Success of the user-provisioning step (`_create_user_if_not_available`):
create succeeds when the lookup failed; otherwise a needed re-tag must
succeed, or — its `ClientError` being caught — the fallback create must. -/
def provisioning_ok (o : Oracle) (options : Option Config) : Bool :=
  if o.getUserFails then o.createUserOk
  else if o.currentTags ≠ some (expected_tags options) then
    o.tagUserOk || o.createUserOk
  else true

/-- Success of all core (non-reconciliation) service calls of `rotate`:
user provisioning, key listing, the `last_used` fetches of candidate
selection, candidate deletion, deactivation of the last remaining key, the
account-id lookup needed to build policy ARNs, and new-key creation.  It
mentions no group/policy reconciliation flag: those failures are caught. -/
def core_ok (o : Oracle) (s : Secret) : Bool :=
  provisioning_ok o s.config &&
  o.listKeysOk &&
  (if 1 < o.keys.length then scan_ok o o.keys && o.deleteKeyOk else true) &&
  (decide ((if 1 < o.keys.length then o.keys.length - 1 else o.keys.length)
    ≠ 1) || o.updateKeyOk) &&
  ((get_policies s).isEmpty || o.stsOk) &&
  o.createKeyOk

/-- Interpretation of a run's group actions on a membership set (all calls
assumed to succeed): a remove call drops the group, an add call appends it. -/
def apply_group_action (user : String) (st : List String) (a : Action) :
    List String :=
  match a with
  | Action.removeFromGroup u g => if u = user then st.filter (fun x => x ≠ g) else st
  | Action.addToGroup u g => if u = user then st ++ [g] else st
  | _ => st

/-- Interpretation of a run's policy actions on an attachment set. -/
def apply_policy_action (user : String) (st : List String) (a : Action) :
    List String :=
  match a with
  | Action.detachPolicy p u => if u = user then st.filter (fun x => x ≠ p) else st
  | Action.attachPolicy p u => if u = user then st ++ [p] else st
  | _ => st

/-- `distribute` (lines 332-333): unconditionally raises
`DistributionException('IAM does not support distribution')`, no matter what
secret and destination it is given; it performs no service call. -/
def distribute {α β : Type} (_secret : α) (_destination : β) :
    Except String Unit :=
  Except.error "IAM does not support distribution"

/-- Python values as they can appear in a spec's `config` block. -/
inductive PyVal where
  | str (s : String)
  | int (n : Int)
  | bool (b : Bool)
  | pyNone
  | list (xs : List PyVal)
  | dict (xs : List (String × PyVal))

/-- Python runtime types, as compared by `type(x) == t`. -/
inductive PyType where
  | str | int | bool | noneType | list | dict
deriving Repr, DecidableEq

/-- `type(v)`. -/
def PyVal.typeOf : PyVal → PyType
  | PyVal.str _ => PyType.str
  | PyVal.int _ => PyType.int
  | PyVal.bool _ => PyType.bool
  | PyVal.pyNone => PyType.noneType
  | PyVal.list _ => PyType.list
  | PyVal.dict _ => PyType.dict

/-- Python truthiness of a value. -/
def PyVal.truthy : PyVal → Bool
  | PyVal.str s => !s.isEmpty
  | PyVal.int n => decide (n ≠ 0)
  | PyVal.bool b => b
  | PyVal.pyNone => false
  | PyVal.list xs => !xs.isEmpty
  | PyVal.dict xs => !xs.isEmpty

/-- `d.get(k)` on a Python dict modelled as an entry list. -/
def dget (d : List (String × PyVal)) (k : String) : Option PyVal :=
  (d.find? (fun p => p.1 = k)).map (fun p => p.2)

/-- `d[k] = v` on a key already present: the entry is updated in place. -/
def dset (d : List (String × PyVal)) (k : String) (v : PyVal) :
    List (String × PyVal) :=
  d.map (fun p => if p.1 = k then (k, v) else p)

/-- Display name of an expected type in the rejection message. -/
def pyTypeName : PyType → String
  | PyType.str => "str"
  | PyType.int => "int"
  | PyType.bool => "bool"
  | PyType.noneType => "NoneType"
  | PyType.list => "list"
  | PyType.dict => "dict"

/-- `allowed_options` of `validate_spec` (line 351), in iteration order. -/
def allowed_options : List (String × PyType) :=
  [("tags", PyType.dict), ("groups", PyType.list), ("policies", PyType.list)]

/-- The per-option check of `validate_spec` (lines 353-356): an option that is
present AND truthy must have exactly the expected runtime type.  `none` means
the option passes (absent or falsy or well-typed). -/
def check_option (cfg : List (String × PyVal)) (oname : String)
    (otype : PyType) : Option (Bool × String) :=
  match dget cfg oname with
  | none => none
  | some v =>
    if v.truthy && !(v.typeOf == otype) then
      some (false, oname ++ " must be a " ++ pyTypeName otype)
    else none

/-- `validate_spec` (lines 342-365), with the base-class validation passed in
as `base` (its code lives outside this repository).  The spec's `config`
value, when present, is taken to be a dict: the source accesses it with
`.get`/`.keys()`, so a non-dict `config` would raise `AttributeError`, a case
outside this model. -/
def validate_spec (base : Bool × String) (spec : List (String × PyVal)) :
    Bool × String :=
  if !base.1 then (false, base.2)
  else
    match dget spec "config" with
    | none => (true, "All good!")
    | some cfgVal =>
      match cfgVal with
      | PyVal.dict cfg =>
        match check_option cfg "tags" PyType.dict with
        | some r => r
        | none =>
          match check_option cfg "groups" PyType.list with
          | some r => r
          | none =>
            match check_option cfg "policies" PyType.list with
            | some r => r
            | none =>
              let unknown := (cfg.map (fun p => p.1)).dedup.filter
                (fun k => !((allowed_options.map (fun p => p.1)).contains k))
              if !unknown.isEmpty then
                (false, "Unsupported values in provider config")
              else (true, "All good!")
      | _ => (true, "All good!")

/-- `redact_result` (lines 335-340): when `result` has a `value` entry that
(as a dict) contains the `secret` field, that field is overwritten with
`'***'`; otherwise the result is returned unchanged.  A non-dict `value` is
returned unchanged (the source would apply `in` to it, which for the claims
at hand is out of scope and never reaches the assignment). -/
def redact_result (result : List (String × PyVal)) : List (String × PyVal) :=
  match dget result "value" with
  | some (PyVal.dict v) =>
    if (dget v "secret").isSome then
      dset result "value" (PyVal.dict (dset v "secret" (PyVal.str "***")))
    else result
  | _ => result

/-! ### Concrete example inputs used by the witnesses -/

/-- Two Active keys with distinct `last_used` timestamps. -/
def keys_two_active : List AccessKey :=
  [⟨"AKIA1", "bob", "Active", some 5⟩, ⟨"AKIA2", "bob", "Active", some 3⟩]

/-- Two keys, the first one Inactive. -/
def keys_one_inactive : List AccessKey :=
  [⟨"AKIA1", "bob", "Inactive", none⟩, ⟨"AKIA2", "bob", "Active", some 3⟩]

/-- An oracle whose core calls all succeed but whose group/policy add, remove,
attach and detach calls all fail. -/
def oracle_c5 : Oracle :=
  ⟨false, some [("managedby", "keydra")], true, true, true, keys_two_active,
    (fun _ => true), (fun _ => none), true, true, true, "123456789012", true,
    "AKIANEW", "s3cr3t", true, ["g1"], (fun _ => false), (fun _ => false),
    true, ["arnX"], (fun _ => false), (fun _ => false)⟩

/-- An oracle with every call succeeding and one Inactive key among two. -/
def oracle_c2 : Oracle :=
  ⟨false, some [("managedby", "keydra")], true, true, true, keys_one_inactive,
    (fun _ => true), (fun _ => none), true, true, true, "123456789012", true,
    "AKIANEW", "s3cr3t", true, [], (fun _ => true), (fun _ => true),
    true, [], (fun _ => true), (fun _ => true)⟩

/-- A secret descriptor with no `config` block. -/
def secret_bob : Secret := ⟨"bob", none⟩

/-- An oracle for the reconciliation witness: current groups `g1, g2` and one
currently attached policy ARN. -/
def oracle_c4 : Oracle :=
  ⟨false, some [("managedby", "keydra")], true, true, true, [],
    (fun _ => true), (fun _ => none), true, true, true, "123456789012", true,
    "AKIANEW", "s3cr3t", true, ["g1", "g2"], (fun _ => true),
    (fun _ => true), true, ["arn:aws:iam::123456789012:policy/pold"],
    (fun _ => true), (fun _ => true)⟩

/-- A config block with a single custom tag. -/
def config_env : Config := ⟨some [("env", "prod")], none, none⟩

/-- An oracle whose user exists and carries the expected tags in the wrong
order. -/
def oracle_tags_order : Oracle :=
  ⟨false, some [("env", "prod"), ("managedby", "keydra")], true, true, true,
    [], (fun _ => true), (fun _ => none), true, true, true, "123456789012",
    true, "AKIANEW", "s3cr3t", true, [], (fun _ => true), (fun _ => true),
    true, [], (fun _ => true), (fun _ => true)⟩

/-- An oracle whose `get_user` lookup fails (user absent). -/
def oracle_no_user : Oracle :=
  ⟨true, none, true, true, true, [], (fun _ => true), (fun _ => none), true,
    true, true, "123456789012", true, "AKIANEW", "s3cr3t", true, [],
    (fun _ => true), (fun _ => true), true, [], (fun _ => true),
    (fun _ => true)⟩

/-- A result envelope with a secret and a key field. -/
def result_ex : List (String × PyVal) :=
  [("value", PyVal.dict [("secret", PyVal.str "abc"),
    ("key", PyVal.str "AKIAEXAMPLE")]), ("status", PyVal.str "ok")]

/-- A spec whose `config.tags` is an empty list: present and not a mapping,
yet falsy. -/
def spec_falsy_tags : List (String × PyVal) :=
  [("key", PyVal.str "bob"),
    ("config", PyVal.dict [("tags", PyVal.list [])])]

/-- A well-formed spec: one truthy `groups` sequence. -/
def spec_good : List (String × PyVal) :=
  [("key", PyVal.str "bob"),
    ("config", PyVal.dict [("groups", PyVal.list [PyVal.str "g1"])])]

/-! ### Lemmas about `pick_loop` / `pick_best_candidate` -/

/-- The first non-Active key short-circuits the loop, whatever candidate is
currently held. -/
theorem pick_loop_find_inactive (keys : List AccessKey) :
    ∀ (cand : Option AccessKey) (k : AccessKey),
      keys.find? (fun x => decide (x.status ≠ "Active")) = some k →
      pick_loop keys cand = some k := by
  induction keys with
  | nil => intro cand k hfind; simp at hfind
  | cons x rest ih =>
    intro cand k hfind
    by_cases hx : x.status ≠ "Active"
    · rw [List.find?_cons_of_pos _ (by simpa using hx)] at hfind
      cases hfind
      simp [pick_loop, hx]
    · rw [List.find?_cons_of_neg _ (by simpa using hx)] at hfind
      have hx' : x.status = "Active" := by
        by_contra hc; exact hx hc
      cases cand with
      | none => simpa [pick_loop, hx'] using ih (some x) k hfind
      | some c =>
        cases hkl : x.lastUsed with
        | none => simpa [pick_loop, hx', hkl] using ih (some c) k hfind
        | some lk =>
          cases hcl : c.lastUsed with
          | none => simpa [pick_loop, hx', hkl, hcl] using ih (some c) k hfind
          | some lc =>
            by_cases hlt : lk < lc
            · simpa [pick_loop, hx', hkl, hcl, hlt] using ih (some x) k hfind
            · simpa [pick_loop, hx', hkl, hcl, hlt] using ih (some c) k hfind

/-- The result of the loop is an input key or the incoming candidate. -/
theorem pick_loop_mem (keys : List AccessKey) :
    ∀ (cand : Option AccessKey) (r : AccessKey),
      pick_loop keys cand = some r → r ∈ keys ∨ cand = some r := by
  induction keys with
  | nil => intro cand r hp; simp [pick_loop] at hp; simp [hp]
  | cons x rest ih =>
    intro cand r hp
    by_cases hx : x.status ≠ "Active"
    · simp [pick_loop, hx] at hp
      simp [hp]
    · have hx' : x.status = "Active" := by by_contra hc; exact hx hc
      have step : ∀ c : AccessKey, pick_loop rest (some c) = some r →
          r ∈ x :: rest ∨ (some c : Option AccessKey) = some r := by
        intro c hc
        rcases ih (some c) r hc with h | h
        · exact Or.inl (List.mem_cons_of_mem _ h)
        · exact Or.inr h
      cases cand with
      | none =>
        simp only [pick_loop, hx', ne_eq, not_true_eq_false, if_false,
          ite_false] at hp
        rcases step x (by simpa [pick_loop, hx'] using hp) with h | h
        · exact Or.inl h
        · cases h; exact Or.inl (List.mem_cons_self _ _)
      | some c =>
        cases hkl : x.lastUsed with
        | none =>
          have hp' : pick_loop rest (some c) = some r := by
            simpa [pick_loop, hx', hkl] using hp
          rcases step c hp' with h | h
          · exact Or.inl h
          · exact Or.inr h
        | some lk =>
          cases hcl : c.lastUsed with
          | none =>
            have hp' : pick_loop rest (some c) = some r := by
              simpa [pick_loop, hx', hkl, hcl] using hp
            rcases step c hp' with h | h
            · exact Or.inl h
            · exact Or.inr h
          | some lc =>
            by_cases hlt : lk < lc
            · have hp' : pick_loop rest (some x) = some r := by
                simpa [pick_loop, hx', hkl, hcl, hlt] using hp
              rcases step x hp' with h | h
              · exact Or.inl h
              · cases h; exact Or.inl (List.mem_cons_self _ _)
            · have hp' : pick_loop rest (some c) = some r := by
                simpa [pick_loop, hx', hkl, hcl, hlt] using hp
              rcases step c hp' with h | h
              · exact Or.inl h
              · exact Or.inr h

/-- Once a candidate is held, the loop never returns `none`. -/
theorem pick_loop_some_ne_none (keys : List AccessKey) :
    ∀ c : AccessKey, pick_loop keys (some c) ≠ none := by
  induction keys with
  | nil => intro c; simp [pick_loop]
  | cons x rest ih =>
    intro c
    by_cases hx : x.status ≠ "Active"
    · simp [pick_loop, hx]
    · have hx' : x.status = "Active" := by by_contra hc; exact hx hc
      cases hkl : x.lastUsed with
      | none => simpa [pick_loop, hx', hkl] using ih c
      | some lk =>
        cases hcl : c.lastUsed with
        | none => simpa [pick_loop, hx', hkl, hcl] using ih c
        | some lc =>
          by_cases hlt : lk < lc
          · simpa [pick_loop, hx', hkl, hcl, hlt] using ih x
          · simpa [pick_loop, hx', hkl, hcl, hlt] using ih c

/-- On a non-empty key list the selection never returns `none`. -/
theorem pick_best_candidate_ne_none (keys : List AccessKey)
    (hne : keys ≠ []) : pick_best_candidate keys ≠ none := by
  cases keys with
  | nil => exact absurd rfl hne
  | cons x rest =>
    by_cases hx : x.status ≠ "Active"
    · simp [pick_best_candidate, pick_loop, hx]
    · have hx' : x.status = "Active" := by by_contra hc; exact hx hc
      simpa [pick_best_candidate, pick_loop, hx'] using
        pick_loop_some_ne_none rest x

/-- All-Active keys: a candidate with no usage data is kept for good (every
comparison is skipped). -/
theorem pick_loop_nodata_cand (keys : List AccessKey)
    (hact : ∀ k ∈ keys, k.status = "Active") :
    ∀ c : AccessKey, c.lastUsed = none → pick_loop keys (some c) = some c := by
  induction keys with
  | nil => intro c _; simp [pick_loop]
  | cons x rest ih =>
    intro c hc
    have hx' : x.status = "Active" := hact x (List.mem_cons_self _ _)
    have hrest : ∀ k ∈ rest, k.status = "Active" := fun k hk =>
      hact k (List.mem_cons_of_mem _ hk)
    cases hkl : x.lastUsed with
    | none => simpa [pick_loop, hx', hkl, hc] using ih hrest c hc
    | some lk => simpa [pick_loop, hx', hkl, hc] using ih hrest c hc

/-- All-Active keys, all without usage data: the candidate is kept. -/
theorem pick_loop_nodata_keys (keys : List AccessKey)
    (hact : ∀ k ∈ keys, k.status = "Active")
    (hnd : ∀ k ∈ keys, k.lastUsed = none) :
    ∀ c : AccessKey, pick_loop keys (some c) = some c := by
  induction keys with
  | nil => intro c; simp [pick_loop]
  | cons x rest ih =>
    intro c
    have hx' : x.status = "Active" := hact x (List.mem_cons_self _ _)
    have hxnd : x.lastUsed = none := hnd x (List.mem_cons_self _ _)
    have hrest : ∀ k ∈ rest, k.status = "Active" := fun k hk =>
      hact k (List.mem_cons_of_mem _ hk)
    have hrestnd : ∀ k ∈ rest, k.lastUsed = none := fun k hk =>
      hnd k (List.mem_cons_of_mem _ hk)
    simpa [pick_loop, hx', hxnd] using ih hrest hrestnd c

/-- All-Active keys, candidate with usage data: the loop returns a key (the
candidate or an input key) carrying the minimum usage timestamp among the
candidate's and all the data-carrying keys'. -/
theorem pick_loop_min (keys : List AccessKey)
    (hact : ∀ k ∈ keys, k.status = "Active") :
    ∀ (c : AccessKey) (tc : Nat), c.lastUsed = some tc →
      ∃ r tr, pick_loop keys (some c) = some r ∧ (r = c ∨ r ∈ keys) ∧
        r.lastUsed = some tr ∧ tr ≤ tc ∧
        ∀ k ∈ keys, ∀ tk, k.lastUsed = some tk → tr ≤ tk := by
  induction keys with
  | nil =>
    intro c tc hc
    exact ⟨c, tc, by simp [pick_loop], Or.inl rfl, hc, le_refl _, by simp⟩
  | cons x rest ih =>
    intro c tc hc
    have hx' : x.status = "Active" := hact x (List.mem_cons_self _ _)
    have hrest : ∀ k ∈ rest, k.status = "Active" := fun k hk =>
      hact k (List.mem_cons_of_mem _ hk)
    cases hkl : x.lastUsed with
    | none =>
      obtain ⟨r, tr, hp, hmem, hru, htr, hmin⟩ := ih hrest c tc hc
      refine ⟨r, tr, ?_, ?_, hru, htr, ?_⟩
      · simpa [pick_loop, hx', hkl, hc]
      · rcases hmem with h | h
        · exact Or.inl h
        · exact Or.inr (List.mem_cons_of_mem _ h)
      · intro k hk tk hktk
        rcases List.mem_cons.mp hk with rfl | hk'
        · rw [hkl] at hktk; cases hktk
        · exact hmin k hk' tk hktk
    | some lk =>
      by_cases hlt : lk < tc
      · obtain ⟨r, tr, hp, hmem, hru, htr, hmin⟩ := ih hrest x lk hkl
        refine ⟨r, tr, ?_, ?_, hru, ?_, ?_⟩
        · simpa [pick_loop, hx', hkl, hc, hlt]
        · rcases hmem with h | h
          · exact Or.inr (h ▸ List.mem_cons_self _ _)
          · exact Or.inr (List.mem_cons_of_mem _ h)
        · exact le_trans htr (le_of_lt hlt)
        · intro k hk tk hktk
          rcases List.mem_cons.mp hk with rfl | hk'
          · rw [hkl] at hktk; cases hktk; exact htr
          · exact hmin k hk' tk hktk
      · obtain ⟨r, tr, hp, hmem, hru, htr, hmin⟩ := ih hrest c tc hc
        refine ⟨r, tr, ?_, ?_, hru, htr, ?_⟩
        · simpa [pick_loop, hx', hkl, hc, hlt]
        · rcases hmem with h | h
          · exact Or.inl h
          · exact Or.inr (List.mem_cons_of_mem _ h)
        · intro k hk tk hktk
          rcases List.mem_cons.mp hk with rfl | hk'
          · rw [hkl] at hktk; cases hktk
            exact le_trans htr (not_lt.mp hlt)
          · exact hmin k hk' tk hktk

/-- C1.  For a map of access-key records with more than one entry,
`_pick_best_candidate` follows the claimed priority: (a) the first key whose
`Status` is not `'Active'` is the immediate winner (short-circuit); otherwise
(all keys Active) (b) a returned key with no usage data can only be the
first-seen default, i.e. a no-data key is never preferred over one with data
by a usage comparison; (c) when the first key carries usage data the winner
carries the earliest `last_used` timestamp of the whole map; (d) when no
usage comparison applies — the first key has no data, or no later key has
data — the first key seen is the default candidate. -/
theorem claim_C1 (keys : List AccessKey) (hlen : 2 ≤ keys.length) :
    (∀ k, keys.find? (fun x => decide (x.status ≠ "Active")) = some k →
      pick_best_candidate keys = some k)
    ∧ ((∀ k ∈ keys, k.status = "Active") →
      (∀ r, pick_best_candidate keys = some r → r.lastUsed = none →
        keys.head? = some r)
      ∧ (∀ k0 t, keys.head? = some k0 → k0.lastUsed = some t →
        ∃ r tr, pick_best_candidate keys = some r ∧ r ∈ keys ∧
          r.lastUsed = some tr ∧
          ∀ k ∈ keys, ∀ tk, k.lastUsed = some tk → tr ≤ tk)
      ∧ (∀ k0, keys.head? = some k0 →
        (k0.lastUsed = none ∨ ∀ k ∈ keys.tail, k.lastUsed = none) →
        pick_best_candidate keys = some k0)) := by
  constructor
  · intro k hfind
    exact pick_loop_find_inactive keys none k hfind
  · intro hact
    cases keys with
    | nil => simp at hlen
    | cons x rest =>
      have hx' : x.status = "Active" := hact x (List.mem_cons_self _ _)
      have hrest : ∀ k ∈ rest, k.status = "Active" := fun k hk =>
        hact k (List.mem_cons_of_mem _ hk)
      have hstep : pick_best_candidate (x :: rest) = pick_loop rest (some x) := by
        simp [pick_best_candidate, pick_loop, hx']
      refine ⟨?_, ?_, ?_⟩
      · intro r hp hrnone
        cases hxl : x.lastUsed with
        | none =>
          have := pick_loop_nodata_cand rest hrest x hxl
          rw [hstep, this] at hp
          cases hp; rfl
        | some t =>
          obtain ⟨r', tr, hp', _, hru, _, _⟩ := pick_loop_min rest hrest x t hxl
          rw [hstep, hp'] at hp
          cases hp
          rw [hru] at hrnone; cases hrnone
      · intro k0 t hhead hk0
        have hk0x : x = k0 := by simpa using hhead
        subst hk0x
        obtain ⟨r, tr, hp, hmem, hru, htr, hmin⟩ :=
          pick_loop_min rest hrest x t hk0
        refine ⟨r, tr, by rw [hstep, hp], ?_, hru, ?_⟩
        · rcases hmem with h | h
          · exact h ▸ List.mem_cons_self _ _
          · exact List.mem_cons_of_mem _ h
        · intro k hk tk hktk
          rcases List.mem_cons.mp hk with rfl | hk'
          · rw [hk0] at hktk; cases hktk; exact htr
          · exact hmin k hk' tk hktk
      · intro k0 hhead hnd
        have hk0x : x = k0 := by simpa using hhead
        subst hk0x
        rcases hnd with hnd | hnd
        · rw [hstep]; exact pick_loop_nodata_cand rest hrest x hnd
        · rw [hstep]; exact pick_loop_nodata_keys rest hrest hnd x

/-- Witness for C1, at the two-key map
`[{A, Active, last_used 5}, {B, Active, last_used 3}]`. -/
theorem claim_C1_witness :
    2 ≤ ([⟨"AKIA1", "bob", "Active", some 5⟩,
        ⟨"AKIA2", "bob", "Active", some 3⟩] : List AccessKey).length
    ∧ ((∀ k, ([⟨"AKIA1", "bob", "Active", some 5⟩,
          ⟨"AKIA2", "bob", "Active", some 3⟩] : List AccessKey).find?
            (fun x => decide (x.status ≠ "Active")) = some k →
        pick_best_candidate [⟨"AKIA1", "bob", "Active", some 5⟩,
          ⟨"AKIA2", "bob", "Active", some 3⟩] = some k)
      ∧ ((∀ k ∈ ([⟨"AKIA1", "bob", "Active", some 5⟩,
            ⟨"AKIA2", "bob", "Active", some 3⟩] : List AccessKey),
            k.status = "Active") →
        (∀ r, pick_best_candidate [⟨"AKIA1", "bob", "Active", some 5⟩,
            ⟨"AKIA2", "bob", "Active", some 3⟩] = some r →
          r.lastUsed = none →
          ([⟨"AKIA1", "bob", "Active", some 5⟩,
            ⟨"AKIA2", "bob", "Active", some 3⟩] : List AccessKey).head?
            = some r)
        ∧ (∀ k0 t, ([⟨"AKIA1", "bob", "Active", some 5⟩,
              ⟨"AKIA2", "bob", "Active", some 3⟩] : List AccessKey).head?
              = some k0 → k0.lastUsed = some t →
          ∃ r tr, pick_best_candidate [⟨"AKIA1", "bob", "Active", some 5⟩,
              ⟨"AKIA2", "bob", "Active", some 3⟩] = some r ∧
            r ∈ ([⟨"AKIA1", "bob", "Active", some 5⟩,
              ⟨"AKIA2", "bob", "Active", some 3⟩] : List AccessKey) ∧
            r.lastUsed = some tr ∧
            ∀ k ∈ ([⟨"AKIA1", "bob", "Active", some 5⟩,
              ⟨"AKIA2", "bob", "Active", some 3⟩] : List AccessKey),
              ∀ tk, k.lastUsed = some tk → tr ≤ tk)
        ∧ (∀ k0, ([⟨"AKIA1", "bob", "Active", some 5⟩,
              ⟨"AKIA2", "bob", "Active", some 3⟩] : List AccessKey).head?
              = some k0 →
            (k0.lastUsed = none ∨
              ∀ k ∈ ([⟨"AKIA1", "bob", "Active", some 5⟩,
                ⟨"AKIA2", "bob", "Active", some 3⟩] : List AccessKey).tail,
                k.lastUsed = none) →
            pick_best_candidate [⟨"AKIA1", "bob", "Active", some 5⟩,
              ⟨"AKIA2", "bob", "Active", some 3⟩] = some k0))) :=
  ⟨by decide,
    claim_C1 [⟨"AKIA1", "bob", "Active", some 5⟩,
      ⟨"AKIA2", "bob", "Active", some 3⟩] (by decide)⟩

/-! ### Lemmas about the effectful selection and the stages of `rotate` -/

/-- The effectful selection succeeds exactly when every `last_used` fetch it
performs succeeds. -/
theorem pick_best_candidateE_isOk (o : Oracle) (keys : List AccessKey) :
    ∀ cand, (pick_best_candidateE o keys cand).isOk = scan_ok o keys := by
  induction keys with
  | nil => intro cand; simp [pick_best_candidateE, scan_ok, Except.isOk, Except.toBool]
  | cons x rest ih =>
    intro cand
    by_cases hlu : o.lastUsedOk x.accessKeyId
    · have hst : (annotate o x).status = x.status := rfl
      by_cases hx : x.status ≠ "Active"
      · simp [pick_best_candidateE, scan_ok, hlu, hst, hx, Except.isOk, Except.toBool]
      · have hx' : x.status = "Active" := by by_contra hc; exact hx hc
        cases cand with
        | none =>
          simpa [pick_best_candidateE, scan_ok, hlu, hst, hx'] using
            ih (some (annotate o x))
        | some c =>
          cases hkl : (annotate o x).lastUsed with
          | none =>
            simpa [pick_best_candidateE, scan_ok, hlu, hst, hx', hkl] using
              ih (some c)
          | some lk =>
            cases hcl : c.lastUsed with
            | none =>
              simpa [pick_best_candidateE, scan_ok, hlu, hst, hx', hkl, hcl]
                using ih (some c)
            | some lc =>
              by_cases hlt : lk < lc
              · simpa [pick_best_candidateE, scan_ok, hlu, hst, hx', hkl, hcl,
                  hlt] using ih (some (annotate o x))
              · simpa [pick_best_candidateE, scan_ok, hlu, hst, hx', hkl, hcl,
                  hlt] using ih (some c)
    · simp [pick_best_candidateE, scan_ok, hlu, Except.isOk, Except.toBool]

/-- Once a candidate is held, the effectful loop cannot succeed with `none`. -/
theorem pick_best_candidateE_some (o : Oracle) (keys : List AccessKey) :
    ∀ c, pick_best_candidateE o keys (some c) ≠ Except.ok none := by
  induction keys with
  | nil => intro c; simp [pick_best_candidateE]
  | cons x rest ih =>
    intro c
    by_cases hlu : o.lastUsedOk x.accessKeyId
    · by_cases hx : x.status ≠ "Active"
      · simp [pick_best_candidateE, hlu, show (annotate o x).status = x.status
          from rfl, hx]
      · have hx' : x.status = "Active" := by by_contra hc; exact hx hc
        cases hkl : (annotate o x).lastUsed with
        | none =>
          simpa [pick_best_candidateE, hlu,
            show (annotate o x).status = x.status from rfl, hx', hkl]
            using ih c
        | some lk =>
          cases hcl : c.lastUsed with
          | none =>
            simpa [pick_best_candidateE, hlu,
              show (annotate o x).status = x.status from rfl, hx', hkl, hcl]
              using ih c
          | some lc =>
            by_cases hlt : lk < lc
            · simpa [pick_best_candidateE, hlu,
                show (annotate o x).status = x.status from rfl, hx', hkl, hcl,
                hlt] using ih (annotate o x)
            · simpa [pick_best_candidateE, hlu,
                show (annotate o x).status = x.status from rfl, hx', hkl, hcl,
                hlt] using ih c
    · simp [pick_best_candidateE, hlu]

/-- On a non-empty key list the effectful selection cannot succeed with
`none`. -/
theorem pick_best_candidateE_ne_none (o : Oracle) (keys : List AccessKey)
    (hne : keys ≠ []) : pick_best_candidateE o keys none ≠ Except.ok none := by
  cases keys with
  | nil => exact absurd rfl hne
  | cons x rest =>
    by_cases hlu : o.lastUsedOk x.accessKeyId
    · by_cases hx : x.status ≠ "Active"
      · simp [pick_best_candidateE, hlu, show (annotate o x).status = x.status
          from rfl, hx]
      · have hx' : x.status = "Active" := by by_contra hc; exact hx hc
        simpa [pick_best_candidateE, hlu,
          show (annotate o x).status = x.status from rfl, hx'] using
          pick_best_candidateE_some o rest (annotate o x)
    · simp [pick_best_candidateE, hlu]

/-- A selected candidate is the annotation of an input key, or the incoming
candidate. -/
theorem pick_best_candidateE_mem (o : Oracle) (keys : List AccessKey) :
    ∀ cand c, pick_best_candidateE o keys cand = Except.ok (some c) →
      (∃ k, k ∈ keys ∧ c = annotate o k) ∨ cand = some c := by
  induction keys with
  | nil =>
    intro cand c hp
    simp [pick_best_candidateE] at hp
    simp [hp]
  | cons x rest ih =>
    intro cand c hp
    by_cases hlu : o.lastUsedOk x.accessKeyId
    · have hst : (annotate o x).status = x.status := rfl
      by_cases hx : x.status ≠ "Active"
      · simp [pick_best_candidateE, hlu, hst, hx] at hp
        exact Or.inl ⟨x, List.mem_cons_self _ _, hp.symm⟩
      · have hx' : x.status = "Active" := by by_contra hc; exact hx hc
        have step : ∀ c0, pick_best_candidateE o rest (some c0)
              = Except.ok (some c) →
            (∃ k, k ∈ x :: rest ∧ c = annotate o k)
              ∨ (some c0 : Option AccessKey) = some c := by
          intro c0 hc0
          rcases ih (some c0) c hc0 with ⟨k, hk, hck⟩ | h
          · exact Or.inl ⟨k, List.mem_cons_of_mem _ hk, hck⟩
          · exact Or.inr h
        cases cand with
        | none =>
          have hp' : pick_best_candidateE o rest (some (annotate o x))
              = Except.ok (some c) := by
            simpa [pick_best_candidateE, hlu, hst, hx'] using hp
          rcases step (annotate o x) hp' with h | h
          · exact Or.inl h
          · cases h
            exact Or.inl ⟨x, List.mem_cons_self _ _, rfl⟩
        | some c0 =>
          cases hkl : (annotate o x).lastUsed with
          | none =>
            have hp' : pick_best_candidateE o rest (some c0)
                = Except.ok (some c) := by
              simpa [pick_best_candidateE, hlu, hst, hx', hkl] using hp
            rcases step c0 hp' with h | h
            · exact Or.inl h
            · exact Or.inr h
          | some lk =>
            cases hcl : c0.lastUsed with
            | none =>
              have hp' : pick_best_candidateE o rest (some c0)
                  = Except.ok (some c) := by
                simpa [pick_best_candidateE, hlu, hst, hx', hkl, hcl] using hp
              rcases step c0 hp' with h | h
              · exact Or.inl h
              · exact Or.inr h
            | some lc =>
              by_cases hlt : lk < lc
              · have hp' : pick_best_candidateE o rest (some (annotate o x))
                    = Except.ok (some c) := by
                  simpa [pick_best_candidateE, hlu, hst, hx', hkl, hcl, hlt]
                    using hp
                rcases step (annotate o x) hp' with h | h
                · exact Or.inl h
                · cases h
                  exact Or.inl ⟨x, List.mem_cons_self _ _, rfl⟩
              · have hp' : pick_best_candidateE o rest (some c0)
                    = Except.ok (some c) := by
                  simpa [pick_best_candidateE, hlu, hst, hx', hkl, hcl, hlt]
                    using hp
                rcases step c0 hp' with h | h
                · exact Or.inl h
                · exact Or.inr h
    · simp [pick_best_candidateE, hlu] at hp

/-- Removing one key (by its id) from a list of keys with pairwise distinct
ids shortens the list by exactly one. -/
theorem filter_ne_id_length (keys : List AccessKey) :
    ∀ k, (keys.map AccessKey.accessKeyId).Nodup → k ∈ keys →
      (keys.filter (fun x => x.accessKeyId ≠ k.accessKeyId)).length + 1
        = keys.length := by
  induction keys with
  | nil => intro k _ hk; simp at hk
  | cons x rest ih =>
    intro k hnd hk
    have hnd' : (rest.map AccessKey.accessKeyId).Nodup :=
      (List.nodup_cons.mp (by simpa using hnd)).2
    have hxid : x.accessKeyId ∉ rest.map AccessKey.accessKeyId :=
      (List.nodup_cons.mp (by simpa using hnd)).1
    rcases List.mem_cons.mp hk with rfl | hk'
    · have hall : rest.filter
          (fun x0 => decide (x0.accessKeyId ≠ k.accessKeyId)) = rest := by
        apply List.filter_eq_self.mpr
        intro a ha
        have hne : a.accessKeyId ≠ k.accessKeyId := by
          intro he
          exact hxid (he ▸ List.mem_map_of_mem AccessKey.accessKeyId ha)
        simp [hne]
      rw [List.filter_cons, if_neg (by simp), hall]
      simp
    · have hxk : x.accessKeyId ≠ k.accessKeyId := by
        intro he
        exact hxid (he ▸ List.mem_map_of_mem AccessKey.accessKeyId hk')
      rw [List.filter_cons, if_pos (by simp [hxk])]
      have hih := ih k hnd' hk'
      simp only [List.length_cons]
      omega

/-- Success condition of the deletion block of `rotate`. -/
theorem delete_stage_isOk (o : Oracle) (keys : List AccessKey) :
    (delete_stage o keys).isOk
      = (if 1 < keys.length then scan_ok o keys && o.deleteKeyOk
        else true) := by
  by_cases hlen : 1 < keys.length
  · have hne : keys ≠ [] := by
      intro he; rw [he] at hlen; simp at hlen
    cases hp : pick_best_candidateE o keys none with
    | error e =>
      have hscan : scan_ok o keys = false := by
        have h1 := pick_best_candidateE_isOk o keys none
        rw [hp] at h1
        simpa [Except.isOk, Except.toBool] using h1.symm
      simp [delete_stage, hlen, hp, hscan, Except.isOk, Except.toBool]
    | ok cand =>
      cases cand with
      | none => exact absurd hp (pick_best_candidateE_ne_none o keys hne)
      | some c =>
        have hscan : scan_ok o keys = true := by
          have h1 := pick_best_candidateE_isOk o keys none
          rw [hp] at h1
          simpa [Except.isOk, Except.toBool] using h1.symm
        by_cases hdel : o.deleteKeyOk <;>
          simp [delete_stage, hlen, hp, hscan, hdel, Except.isOk,
            Except.toBool]
  · simp [delete_stage, hlen, Except.isOk, Except.toBool]

/-- In the more-than-one-key case a successful deletion block deletes exactly
one input key (by user name and id) and leaves the rest. -/
theorem delete_stage_ok_gt1 (o : Oracle) (keys : List AccessKey)
    (hlen : 1 < keys.length)
    (hnd : (keys.map AccessKey.accessKeyId).Nodup)
    (acts : List Action) (after : List AccessKey)
    (h : delete_stage o keys = Except.ok (acts, after)) :
    ∃ k, k ∈ keys ∧ acts = [Action.deleteKey k.userName k.accessKeyId] ∧
      after = keys.filter (fun x => x.accessKeyId ≠ k.accessKeyId) ∧
      after.length + 1 = keys.length := by
  have hne : keys ≠ [] := by
    intro he; rw [he] at hlen; simp at hlen
  cases hp : pick_best_candidateE o keys none with
  | error e => simp [delete_stage, hlen, hp] at h
  | ok cand =>
    cases cand with
    | none => exact absurd hp (pick_best_candidateE_ne_none o keys hne)
    | some c =>
      by_cases hdel : o.deleteKeyOk
      · simp [delete_stage, hlen, hp, hdel] at h
        rcases pick_best_candidateE_mem o keys none c hp with ⟨k, hk, hck⟩ | hc
        · have hid : c.accessKeyId = k.accessKeyId := by rw [hck]; rfl
          have hun : c.userName = k.userName := by rw [hck]; rfl
          refine ⟨k, hk, ?_, ?_, ?_⟩
          · rw [← h.1, hid, hun]
          · rw [← h.2, hid]
            simp [ne_eq, decide_not]
          · rw [← h.2, hid]
            have hfl := filter_ne_id_length keys k hnd hk
            simpa [ne_eq, decide_not] using hfl
        · cases hc
      · simp [delete_stage, hlen, hp, hdel] at h

/-- With at most one key the deletion block does nothing. -/
theorem delete_stage_le1 (o : Oracle) (keys : List AccessKey)
    (hlen : ¬ 1 < keys.length) :
    delete_stage o keys = Except.ok ([], keys) := by
  simp [delete_stage, hlen]

/-- Success condition of the deactivation block of `rotate`. -/
theorem deactivate_stage_isOk (o : Oracle) (keys : List AccessKey) :
    (deactivate_stage o keys).isOk
      = (decide (keys.length ≠ 1) || o.updateKeyOk) := by
  match keys with
  | [] => simp [deactivate_stage, Except.isOk, Except.toBool]
  | [r] => by_cases hupd : o.updateKeyOk <;>
      simp [deactivate_stage, hupd, Except.isOk, Except.toBool]
  | x :: y :: t => simp [deactivate_stage, Except.isOk, Except.toBool]

/-- A successful deactivation block on a single remaining key marks exactly
that key Inactive. -/
theorem deactivate_stage_single (o : Oracle) (r : AccessKey)
    (acts : List Action) (h : deactivate_stage o [r] = Except.ok acts) :
    acts = [Action.updateKey r.userName r.accessKeyId "Inactive"] := by
  by_cases hupd : o.updateKeyOk
  · simpa [deactivate_stage, hupd] using h.symm
  · simp [deactivate_stage, hupd] at h

/-- Success condition of the policy-reconciliation step: only the lazily
performed account-id lookup can escape it, and only when at least one policy
is configured. -/
theorem update_user_policies_isOk (o : Oracle) (username : String)
    (policies : List String) :
    (update_user_policies o username policies).isOk
      = (policies.isEmpty || o.stsOk) := by
  by_cases hemp : policies.isEmpty
  · by_cases hl : o.listPoliciesOk <;>
      simp [update_user_policies, hemp, hl, Except.isOk, Except.toBool]
  · by_cases hsts : o.stsOk
    · by_cases hl : o.listPoliciesOk <;>
        simp [update_user_policies, hemp, hsts, hl, Except.isOk, Except.toBool]
    · simp [update_user_policies, hemp, hsts, Except.isOk, Except.toBool]

/-- Success condition of the user-provisioning step. -/
theorem create_user_if_not_available_isOk (o : Oracle) (iam_user : String)
    (options : Option Config) :
    (create_user_if_not_available o iam_user options).isOk
      = provisioning_ok o options := by
  by_cases hg : o.getUserFails
  · by_cases hc : o.createUserOk <;>
      simp [create_user_if_not_available, provisioning_ok, hg, hc, Except.isOk, Except.toBool]
  · by_cases ht : o.currentTags ≠ some (expected_tags options)
    · by_cases htag : o.tagUserOk
      · simp [create_user_if_not_available, provisioning_ok, hg, ht, htag,
          Except.isOk, Except.toBool]
      · by_cases hc : o.createUserOk <;>
          simp [create_user_if_not_available, provisioning_ok, hg, ht, htag,
            hc, Except.isOk, Except.toBool]
    · simp [create_user_if_not_available, provisioning_ok, hg, ht, Except.isOk, Except.toBool]

/-- Decomposition of a successful `rotate` run into its stages and the shape
of its action trace. -/
theorem rotate_ok_elim (o : Oracle) (s : Secret) (acts : List Action)
    (res : RotResult) (h : rotate o s = Except.ok (acts, res)) :
    ∃ provActs delActs keysAfter updActs polActs,
      create_user_if_not_available o s.key s.config = Except.ok provActs ∧
      o.listKeysOk = true ∧
      delete_stage o o.keys = Except.ok (delActs, keysAfter) ∧
      deactivate_stage o keysAfter = Except.ok updActs ∧
      update_user_policies o s.key (get_policies s) = Except.ok polActs ∧
      o.createKeyOk = true ∧
      acts = provActs ++ delActs ++ updActs
        ++ update_user_group_membership o s.key (get_groups s)
        ++ polActs ++ [Action.createKey s.key] ∧
      res = ⟨"iam", o.newKeyId, o.newSecret⟩ := by
  cases hprov : create_user_if_not_available o s.key s.config with
  | error e => simp [rotate, hprov] at h
  | ok provActs =>
    by_cases hlist : o.listKeysOk
    · cases hdel : delete_stage o o.keys with
      | error e => simp [rotate, hprov, hlist, hdel] at h
      | ok p =>
        obtain ⟨delActs, keysAfter⟩ := p
        cases hup : deactivate_stage o keysAfter with
        | error e => simp [rotate, hprov, hlist, hdel, hup] at h
        | ok updActs =>
          cases hpol : update_user_policies o s.key (get_policies s) with
          | error e => simp [rotate, hprov, hlist, hdel, hup, hpol] at h
          | ok polActs =>
            by_cases hck : o.createKeyOk
            · simp [rotate, hprov, hlist, hdel, hup, hpol, hck] at h
              exact ⟨provActs, delActs, keysAfter, updActs, polActs, rfl,
                hlist, rfl, hup, rfl, hck, by simp [← h.1], h.2.symm⟩
            · simp [rotate, hprov, hlist, hdel, hup, hpol, hck] at h
    · simp [rotate, hprov, hlist] at h

/-- C5.  Success of `rotate` is exactly success of its core service calls
(`core_ok`): user provisioning, key listing, the per-key `last_used` fetches,
candidate deletion, deactivation of the last remaining key, the lazy
account-id lookup, and new-key creation.  `core_ok` mentions none of the
group/policy reconciliation flags of the oracle, so an error raised while
listing, adding or removing group memberships or policy attachments never
aborts the rotation, while any core failure yields `Except.error ()` — the
`RotationException` reported to the caller. -/
theorem claim_C5 (o : Oracle) (s : Secret)
    (hnd : (o.keys.map AccessKey.accessKeyId).Nodup) :
    (rotate o s).isOk = core_ok o s := by
  cases hprov : create_user_if_not_available o s.key s.config with
  | error e =>
    have hpov : provisioning_ok o s.config = false := by
      have h1 := create_user_if_not_available_isOk o s.key s.config
      rw [hprov] at h1
      simpa [Except.isOk, Except.toBool] using h1.symm
    simp [rotate, hprov, core_ok, hpov, Except.isOk, Except.toBool]
  | ok provActs =>
    have hpov : provisioning_ok o s.config = true := by
      have h1 := create_user_if_not_available_isOk o s.key s.config
      rw [hprov] at h1
      simpa [Except.isOk, Except.toBool] using h1.symm
    by_cases hlist : o.listKeysOk
    · cases hdel : delete_stage o o.keys with
      | error e =>
        have hf3 : (if 1 < o.keys.length then
            scan_ok o o.keys && o.deleteKeyOk else true) = false := by
          have h1 := delete_stage_isOk o o.keys
          rw [hdel] at h1
          simpa [Except.isOk, Except.toBool] using h1.symm
        simp [rotate, hprov, hlist, hdel, core_ok, hpov, hf3, Except.isOk,
          Except.toBool]
      | ok p =>
        obtain ⟨delActs, keysAfter⟩ := p
        have hf3 : (if 1 < o.keys.length then
            scan_ok o o.keys && o.deleteKeyOk else true) = true := by
          have h1 := delete_stage_isOk o o.keys
          rw [hdel] at h1
          simpa [Except.isOk, Except.toBool] using h1.symm
        have hka : keysAfter.length
            = (if 1 < o.keys.length then o.keys.length - 1
              else o.keys.length) := by
          by_cases hlen : 1 < o.keys.length
          · obtain ⟨k, _, _, _, hlen1⟩ :=
              delete_stage_ok_gt1 o o.keys hlen hnd delActs keysAfter hdel
            simp [hlen]
            omega
          · have h2 := delete_stage_le1 o o.keys hlen
            rw [hdel] at h2
            have : keysAfter = o.keys := by
              injection h2 with h3
              exact congrArg Prod.snd h3
            simp [hlen, this]
        cases hup : deactivate_stage o keysAfter with
        | error e =>
          have hf4 : (decide (keysAfter.length ≠ 1)
              || o.updateKeyOk) = false := by
            have h1 := deactivate_stage_isOk o keysAfter
            rw [hup] at h1
            simpa [Except.isOk, Except.toBool] using h1.symm
          rw [hka] at hf4
          have hrot : (rotate o s).isOk = false := by
            simp [rotate, hprov, hlist, hdel, hup, Except.isOk, Except.toBool]
          have hcore : core_ok o s = false := by
            unfold core_ok
            rw [hf4]
            simp
          rw [hrot, hcore]
        | ok updActs =>
          have hf4 : (decide (keysAfter.length ≠ 1)
              || o.updateKeyOk) = true := by
            have h1 := deactivate_stage_isOk o keysAfter
            rw [hup] at h1
            simpa [Except.isOk, Except.toBool] using h1.symm
          rw [hka] at hf4
          cases hpol : update_user_policies o s.key (get_policies s) with
          | error e =>
            have hf5 : ((get_policies s).isEmpty || o.stsOk) = false := by
              have h1 := update_user_policies_isOk o s.key (get_policies s)
              rw [hpol] at h1
              simpa [Except.isOk, Except.toBool] using h1.symm
            simp [rotate, hprov, hlist, hdel, hup, hpol, core_ok, hpov, hf3,
              hf4, hf5, Except.isOk, Except.toBool]
          | ok polActs =>
            have hf5 : ((get_policies s).isEmpty || o.stsOk) = true := by
              have h1 := update_user_policies_isOk o s.key (get_policies s)
              rw [hpol] at h1
              simpa [Except.isOk, Except.toBool] using h1.symm
            by_cases hck : o.createKeyOk
            · have hrot : (rotate o s).isOk = true := by
                simp [rotate, hprov, hlist, hdel, hup, hpol, hck, Except.isOk,
                  Except.toBool]
              have hcore : core_ok o s = true := by
                unfold core_ok
                rw [hpov, hf3, hf4, hf5, hck]
                simp [hlist]
              rw [hrot, hcore]
            · have hck' : o.createKeyOk = false := by
                simpa using hck
              have hrot : (rotate o s).isOk = false := by
                simp [rotate, hprov, hlist, hdel, hup, hpol, hck, Except.isOk,
                  Except.toBool]
              have hcore : core_ok o s = false := by
                unfold core_ok
                rw [hck']
                simp
              rw [hrot, hcore]
    · simp [rotate, hprov, hlist, core_ok, hpov, Except.isOk, Except.toBool]

/-- The try/except wrapper around `remove_user_from_group` always records the
attempted call. -/
theorem try_remove_from_group_eq (o : Oracle) (u g : String) :
    try_remove_from_group o u g = Action.removeFromGroup u g := by
  by_cases h : o.removeGroupOk g <;> simp [try_remove_from_group, h]

/-- The try/except wrapper around `add_user_to_group` always records the
attempted call. -/
theorem try_add_to_group_eq (o : Oracle) (u g : String) :
    try_add_to_group o u g = Action.addToGroup u g := by
  by_cases h : o.addGroupOk g <;> simp [try_add_to_group, h]

/-- The try/except wrapper around `attach_user_policy` always records the
attempted call. -/
theorem try_attach_policy_eq (o : Oracle) (p u : String) :
    try_attach_policy o p u = Action.attachPolicy p u := by
  by_cases h : o.attachPolicyOk p <;> simp [try_attach_policy, h]

/-- The try/except wrapper around `detach_user_policy` always records the
attempted call. -/
theorem try_detach_policy_eq (o : Oracle) (p u : String) :
    try_detach_policy o p u = Action.detachPolicy p u := by
  by_cases h : o.detachPolicyOk p <;> simp [try_detach_policy, h]

/-- User provisioning issues no key-lifecycle call. -/
theorem create_user_acts_all (o : Oracle) (u : String) (opts : Option Config)
    (acts : List Action)
    (h : create_user_if_not_available o u opts = Except.ok acts) :
    acts.all (fun a => !a.isKeyLifecycle) = true := by
  unfold create_user_if_not_available at h
  by_cases hg : o.getUserFails
  · by_cases hc : o.createUserOk
    · simp [hg, hc] at h
      simp [← h, Action.isKeyLifecycle]
    · simp [hg, hc] at h
  · by_cases ht : o.currentTags ≠ some (expected_tags opts)
    · by_cases htag : o.tagUserOk
      · simp [hg, ht, htag] at h
        simp [← h, Action.isKeyLifecycle]
      · by_cases hc : o.createUserOk
        · simp [hg, ht, htag, hc] at h
          simp [← h, Action.isKeyLifecycle]
        · simp [hg, ht, htag, hc] at h
    · simp [hg, ht] at h
      simp [h]

/-- Group reconciliation issues no key-lifecycle call. -/
theorem group_acts_all (o : Oracle) (u : String) (g : GroupsVal) :
    (update_user_group_membership o u g).all
      (fun a => !a.isKeyLifecycle) = true := by
  simp only [List.all_eq_true]
  intro a ha
  unfold update_user_group_membership at ha
  by_cases hl : o.listGroupsOk
  · simp only [hl, if_true, List.mem_append, List.mem_map] at ha
    rcases ha with ⟨g0, _, rfl⟩ | ⟨g0, _, rfl⟩
    · simp [try_remove_from_group_eq, Action.isKeyLifecycle]
    · simp [try_add_to_group_eq, Action.isKeyLifecycle]
  · simp [hl] at ha

/-- Policy reconciliation issues no key-lifecycle call. -/
theorem pol_acts_all (o : Oracle) (u : String) (ps : List String)
    (acts : List Action) (h : update_user_policies o u ps = Except.ok acts) :
    acts.all (fun a => !a.isKeyLifecycle) = true := by
  unfold update_user_policies at h
  by_cases hes : !ps.isEmpty && !o.stsOk
  · simp [hes] at h
  · by_cases hl : o.listPoliciesOk
    · simp only [hes, if_false, Bool.false_eq_true, hl, if_true] at h
      injection h with h2
      simp only [List.all_eq_true]
      intro a ha
      rw [← h2] at ha
      simp only [List.mem_append, List.mem_map] at ha
      rcases ha with ⟨p0, _, rfl⟩ | ⟨p0, _, rfl⟩
      · simp [try_attach_policy_eq, Action.isKeyLifecycle]
      · simp [try_detach_policy_eq, Action.isKeyLifecycle]
    · simp [hes, hl] at h
      simp [h]

/-- When the flag for a key's `last_used` fetch is down, candidate selection
raises. -/
theorem pickE_flag_false (o : Oracle) (k : AccessKey) (rest : List AccessKey)
    (cand : Option AccessKey) (h : o.lastUsedOk k.accessKeyId = false) :
    pick_best_candidateE o (k :: rest) cand = Except.error () := by
  simp [pick_best_candidateE, h]

/-- A non-Active head key is picked immediately. -/
theorem pickE_head_inactive (o : Oracle) (k : AccessKey)
    (rest : List AccessKey) (cand : Option AccessKey)
    (hflag : o.lastUsedOk k.accessKeyId = true) (hst : k.status ≠ "Active") :
    pick_best_candidateE o (k :: rest) cand
      = Except.ok (some (annotate o k)) := by
  simp [pick_best_candidateE, hflag,
    show (annotate o k).status = k.status from rfl, hst]

/-- An Active head key becomes the initial candidate. -/
theorem pickE_head_active (o : Oracle) (k : AccessKey)
    (rest : List AccessKey)
    (hflag : o.lastUsedOk k.accessKeyId = true) (hst : k.status = "Active") :
    pick_best_candidateE o (k :: rest) none
      = pick_best_candidateE o rest (some (annotate o k)) := by
  simp [pick_best_candidateE, hflag,
    show (annotate o k).status = k.status from rfl, hst]

/-- Counting the image of `g` in a map over a filtered duplicate-free list. -/
theorem count_map_filter_self {f : String → Action}
    (hinj : ∀ a b, f a = f b → a = b) (xs : List String) (hnd : xs.Nodup)
    (p : String → Bool) (g : String) :
    ((xs.filter p).map f).count (f g)
      = if g ∈ xs ∧ p g = true then 1 else 0 := by
  have h1 : ((xs.filter p).map f).count (f g) = (xs.filter p).count g :=
    List.count_map_of_injective _ f (fun a b h => hinj a b h) g
  rw [h1]
  by_cases hmem : g ∈ xs.filter p
  · rw [List.count_eq_one_of_mem (hnd.filter p) hmem]
    rw [List.mem_filter] at hmem
    simp [hmem.1, hmem.2]
  · rw [List.count_eq_zero_of_not_mem hmem]
    have hc : ¬(g ∈ xs ∧ p g = true) := by
      rw [← List.mem_filter]; exact hmem
    simp [hc]

/-- An action that is not in the range of `f` never occurs in a map of `f`. -/
theorem count_map_other {f : String → Action} (xs : List String) (a : Action)
    (hne : ∀ g, f g ≠ a) : (xs.map f).count a = 0 :=
  List.count_eq_zero_of_not_mem (by
    intro hmem
    rcases List.mem_map.mp hmem with ⟨g, _, hg⟩
    exact hne g hg)

/-- Replaying a block of remove-calls keeps exactly the members not removed. -/
theorem foldl_remove_mem (user : String) (rs : List String) :
    ∀ (st : List String) (x : String),
      x ∈ (rs.map (fun g => Action.removeFromGroup user g)).foldl
        (apply_group_action user) st ↔ x ∈ st ∧ x ∉ rs := by
  induction rs with
  | nil => intro st x; simp
  | cons r t ih =>
    intro st x
    simp only [List.map_cons, List.foldl_cons]
    rw [ih]
    have hstep : apply_group_action user st (Action.removeFromGroup user r)
        = st.filter (fun y => y ≠ r) := by simp [apply_group_action]
    rw [hstep]
    constructor
    · rintro ⟨hmf, hxt⟩
      rw [List.mem_filter] at hmf
      have hxr : x ≠ r := by simpa using hmf.2
      refine ⟨hmf.1, fun hx => ?_⟩
      rcases List.mem_cons.mp hx with rfl | hx2
      · exact hxr rfl
      · exact hxt hx2
    · rintro ⟨hst, hnx⟩
      refine ⟨List.mem_filter.mpr ⟨hst, ?_⟩,
        fun hx => hnx (List.mem_cons.mpr (Or.inr hx))⟩
      simpa using fun he => hnx (List.mem_cons.mpr (Or.inl he))

/-- Replaying a block of add-calls adds exactly the added members. -/
theorem foldl_add_mem (user : String) (as : List String) :
    ∀ (st : List String) (x : String),
      x ∈ (as.map (fun g => Action.addToGroup user g)).foldl
        (apply_group_action user) st ↔ x ∈ st ∨ x ∈ as := by
  induction as with
  | nil => intro st x; simp
  | cons a t ih =>
    intro st x
    simp only [List.map_cons, List.foldl_cons]
    rw [ih]
    have hstep : apply_group_action user st (Action.addToGroup user a)
        = st ++ [a] := by simp [apply_group_action]
    rw [hstep]
    simp only [List.mem_append, List.mem_singleton, List.mem_cons]
    tauto

/-- Replaying a block of attach-calls adds exactly the attached ARNs. -/
theorem foldl_attach_mem (user : String) (as : List String) :
    ∀ (st : List String) (x : String),
      x ∈ (as.map (fun a => Action.attachPolicy a user)).foldl
        (apply_policy_action user) st ↔ x ∈ st ∨ x ∈ as := by
  induction as with
  | nil => intro st x; simp
  | cons a t ih =>
    intro st x
    simp only [List.map_cons, List.foldl_cons]
    rw [ih]
    have hstep : apply_policy_action user st (Action.attachPolicy a user)
        = st ++ [a] := by simp [apply_policy_action]
    rw [hstep]
    simp only [List.mem_append, List.mem_singleton, List.mem_cons]
    tauto

/-- Replaying a block of detach-calls keeps exactly the ARNs not detached. -/
theorem foldl_detach_mem (user : String) (ds : List String) :
    ∀ (st : List String) (x : String),
      x ∈ (ds.map (fun a => Action.detachPolicy a user)).foldl
        (apply_policy_action user) st ↔ x ∈ st ∧ x ∉ ds := by
  induction ds with
  | nil => intro st x; simp
  | cons d t ih =>
    intro st x
    simp only [List.map_cons, List.foldl_cons]
    rw [ih]
    have hstep : apply_policy_action user st (Action.detachPolicy d user)
        = st.filter (fun y => y ≠ d) := by simp [apply_policy_action]
    rw [hstep]
    constructor
    · rintro ⟨hmf, hxt⟩
      rw [List.mem_filter] at hmf
      have hxr : x ≠ d := by simpa using hmf.2
      refine ⟨hmf.1, fun hx => ?_⟩
      rcases List.mem_cons.mp hx with rfl | hx2
      · exact hxr rfl
      · exact hxt hx2
    · rintro ⟨hst, hnx⟩
      refine ⟨List.mem_filter.mpr ⟨hst, ?_⟩,
        fun hx => hnx (List.mem_cons.mpr (Or.inr hx))⟩
      simpa using fun he => hnx (List.mem_cons.mpr (Or.inl he))

/-- C4.  Group and policy reconciliation is a pure symmetric difference on
sets: with configured set `S` and current set `C`, exactly the elements of
`C \ S` get a remove/detach call (once each), exactly the elements of
`S \ C` get an add/attach call (once each), elements of `S ∩ C` get no call
at all, and replaying the successful calls on `C` yields exactly `S`,
independent of the order and multiplicity of the input lists. -/
theorem claim_C4 (o : Oracle) (user : String) (gs ps : List String)
    (hlg : o.listGroupsOk = true) (hlp : o.listPoliciesOk = true)
    (hsts : o.stsOk = true) :
    (∀ g, (update_user_group_membership o user (GroupsVal.list gs)).count
        (Action.removeFromGroup user g)
      = if g ∈ o.currentGroups ∧ g ∉ gs then 1 else 0)
    ∧ (∀ g, (update_user_group_membership o user (GroupsVal.list gs)).count
        (Action.addToGroup user g)
      = if g ∈ gs ∧ g ∉ o.currentGroups then 1 else 0)
    ∧ (∀ g, g ∈ gs → g ∈ o.currentGroups →
      Action.removeFromGroup user g
          ∉ update_user_group_membership o user (GroupsVal.list gs)
        ∧ Action.addToGroup user g
          ∉ update_user_group_membership o user (GroupsVal.list gs))
    ∧ (∀ x, x ∈ (update_user_group_membership o user
          (GroupsVal.list gs)).foldl (apply_group_action user) o.currentGroups
        ↔ x ∈ gs)
    ∧ (∀ pacts, update_user_policies o user ps = Except.ok pacts →
      (∀ a, pacts.count (Action.attachPolicy a user)
        = if a ∈ ps.dedup.map (make_policy_arn o.accountId)
            ∧ a ∉ o.currentPolicyArns then 1 else 0)
      ∧ (∀ a, pacts.count (Action.detachPolicy a user)
        = if a ∈ o.currentPolicyArns
            ∧ a ∉ ps.dedup.map (make_policy_arn o.accountId) then 1 else 0)
      ∧ (∀ x, x ∈ pacts.foldl (apply_policy_action user) o.currentPolicyArns
          ↔ x ∈ ps.dedup.map (make_policy_arn o.accountId))) := by
  have hga : update_user_group_membership o user (GroupsVal.list gs)
      = (((o.currentGroups.dedup ++ gs.dedup).dedup).filter
            (fun g => !(gs.dedup.contains g))).map
          (fun g => Action.removeFromGroup user g)
        ++ (((o.currentGroups.dedup ++ gs.dedup).dedup).filter
            (fun g => !(o.currentGroups.dedup.contains g))).map
          (fun g => Action.addToGroup user g) := by
    simp only [update_user_group_membership, hlg, if_true,
      try_remove_from_group_eq, try_add_to_group_eq]
  have hrinj : ∀ a b : String,
      Action.removeFromGroup user a = Action.removeFromGroup user b →
      a = b := fun a b h => by simpa using h
  have hainj : ∀ a b : String,
      Action.addToGroup user a = Action.addToGroup user b → a = b :=
    fun a b h => by simpa using h
  have hrc : ∀ g, (update_user_group_membership o user
        (GroupsVal.list gs)).count (Action.removeFromGroup user g)
      = if g ∈ o.currentGroups ∧ g ∉ gs then 1 else 0 := by
    intro g
    rw [hga, List.count_append]
    rw [count_map_filter_self hrinj _ (List.nodup_dedup _) _ g]
    rw [count_map_other _ (Action.removeFromGroup user g)
      (fun g0 => by simp)]
    have hcond : (g ∈ (o.currentGroups.dedup ++ gs.dedup).dedup
          ∧ (!(gs.dedup.contains g)) = true)
        ↔ (g ∈ o.currentGroups ∧ g ∉ gs) := by
      simp [List.mem_dedup, List.mem_append]
      tauto
    simp only [hcond, Nat.add_zero]
  have hac : ∀ g, (update_user_group_membership o user
        (GroupsVal.list gs)).count (Action.addToGroup user g)
      = if g ∈ gs ∧ g ∉ o.currentGroups then 1 else 0 := by
    intro g
    rw [hga, List.count_append]
    rw [count_map_filter_self hainj _ (List.nodup_dedup _) _ g]
    rw [count_map_other _ (Action.addToGroup user g) (fun g0 => by simp)]
    have hcond : (g ∈ (o.currentGroups.dedup ++ gs.dedup).dedup
          ∧ (!(o.currentGroups.dedup.contains g)) = true)
        ↔ (g ∈ gs ∧ g ∉ o.currentGroups) := by
      simp [List.mem_dedup, List.mem_append]
      tauto
    simp only [hcond, Nat.zero_add]
  refine ⟨hrc, hac, ?_, ?_, ?_⟩
  · intro g hgs hcur
    constructor
    · rw [← List.count_eq_zero, hrc g]
      simp [hgs]
    · rw [← List.count_eq_zero, hac g]
      simp [hcur]
  · intro x
    rw [hga, List.foldl_append, foldl_add_mem, foldl_remove_mem]
    simp only [List.mem_filter, List.mem_dedup, List.mem_append]
    simp
    tauto
  · intro pacts hpacts
    have hpe : update_user_policies o user ps = Except.ok
        ((((ps.dedup.map (make_policy_arn o.accountId)
              ++ o.currentPolicyArns.dedup).dedup).filter
            (fun a => !(o.currentPolicyArns.dedup.contains a))).map
          (fun a => Action.attachPolicy a user)
        ++ (((ps.dedup.map (make_policy_arn o.accountId)
              ++ o.currentPolicyArns.dedup).dedup).filter
            (fun a => !((ps.dedup.map
              (make_policy_arn o.accountId)).contains a))).map
          (fun a => Action.detachPolicy a user)) := by
      simp only [update_user_policies, hsts, Bool.not_true, Bool.and_false,
        Bool.false_eq_true, if_false, hlp, if_true, try_attach_policy_eq,
        try_detach_policy_eq]
    rw [hpe] at hpacts
    injection hpacts with hpacts2
    have hatinj : ∀ a b : String,
        Action.attachPolicy a user = Action.attachPolicy b user → a = b :=
      fun a b h => by simpa using h
    have hdtinj : ∀ a b : String,
        Action.detachPolicy a user = Action.detachPolicy b user → a = b :=
      fun a b h => by simpa using h
    refine ⟨?_, ?_, ?_⟩
    · intro a
      rw [← hpacts2, List.count_append]
      rw [count_map_filter_self hatinj _ (List.nodup_dedup _) _ a]
      rw [count_map_other _ (Action.attachPolicy a user)
        (fun g0 => by simp)]
      have hcond : (a ∈ (ps.dedup.map (make_policy_arn o.accountId)
              ++ o.currentPolicyArns.dedup).dedup
            ∧ (!(o.currentPolicyArns.dedup.contains a)) = true)
          ↔ (a ∈ ps.dedup.map (make_policy_arn o.accountId)
            ∧ a ∉ o.currentPolicyArns) := by
        simp [List.mem_dedup, List.mem_append]
        tauto
      simp only [hcond, Nat.add_zero]
    · intro a
      rw [← hpacts2, List.count_append]
      rw [count_map_filter_self hdtinj _ (List.nodup_dedup _) _ a]
      rw [count_map_other _ (Action.detachPolicy a user)
        (fun g0 => by simp)]
      have hcond : (a ∈ (ps.dedup.map (make_policy_arn o.accountId)
              ++ o.currentPolicyArns.dedup).dedup
            ∧ (!((ps.dedup.map (make_policy_arn o.accountId)).contains a))
              = true)
          ↔ (a ∈ o.currentPolicyArns
            ∧ a ∉ ps.dedup.map (make_policy_arn o.accountId)) := by
        simp [List.mem_dedup, List.mem_append]
        tauto
      simp only [hcond, Nat.zero_add]
    · intro x
      rw [← hpacts2, List.foldl_append, foldl_detach_mem, foldl_attach_mem]
      generalize ps.dedup.map (make_policy_arn o.accountId) = E
      simp only [List.mem_filter, List.mem_dedup, List.mem_append]
      simp
      tauto

/-- Witness for C4, at current groups `g1, g2`, configured groups `g2, g3`,
one stale attached policy and one configured policy `pnew`. -/
theorem claim_C4_witness :
    (∀ g, (update_user_group_membership oracle_c4 "bob"
        (GroupsVal.list ["g2", "g3"])).count
        (Action.removeFromGroup "bob" g)
      = if g ∈ oracle_c4.currentGroups ∧ g ∉ ["g2", "g3"] then 1 else 0)
    ∧ (∀ g, (update_user_group_membership oracle_c4 "bob"
        (GroupsVal.list ["g2", "g3"])).count (Action.addToGroup "bob" g)
      = if g ∈ ["g2", "g3"] ∧ g ∉ oracle_c4.currentGroups then 1 else 0)
    ∧ (∀ g, g ∈ ["g2", "g3"] → g ∈ oracle_c4.currentGroups →
      Action.removeFromGroup "bob" g
          ∉ update_user_group_membership oracle_c4 "bob"
            (GroupsVal.list ["g2", "g3"])
        ∧ Action.addToGroup "bob" g
          ∉ update_user_group_membership oracle_c4 "bob"
            (GroupsVal.list ["g2", "g3"]))
    ∧ (∀ x, x ∈ (update_user_group_membership oracle_c4 "bob"
          (GroupsVal.list ["g2", "g3"])).foldl (apply_group_action "bob")
          oracle_c4.currentGroups
        ↔ x ∈ ["g2", "g3"])
    ∧ (∀ pacts, update_user_policies oracle_c4 "bob" ["pnew"]
        = Except.ok pacts →
      (∀ a, pacts.count (Action.attachPolicy a "bob")
        = if a ∈ (["pnew"] : List String).dedup.map
              (make_policy_arn oracle_c4.accountId)
            ∧ a ∉ oracle_c4.currentPolicyArns then 1 else 0)
      ∧ (∀ a, pacts.count (Action.detachPolicy a "bob")
        = if a ∈ oracle_c4.currentPolicyArns
            ∧ a ∉ (["pnew"] : List String).dedup.map
              (make_policy_arn oracle_c4.accountId) then 1 else 0)
      ∧ (∀ x, x ∈ pacts.foldl (apply_policy_action "bob")
            oracle_c4.currentPolicyArns
          ↔ x ∈ (["pnew"] : List String).dedup.map
            (make_policy_arn oracle_c4.accountId))) :=
  claim_C4 oracle_c4 "bob" ["g2", "g3"] ["pnew"] rfl rfl rfl

/-- C2.  Two existing keys of which exactly one is Inactive: a successful
`rotate` deletes the Inactive key — whatever the usage timestamps returned by
the service — then marks the remaining key Inactive, then creates the new
key; no other key-lifecycle call is issued. -/
theorem claim_C2 (o : Oracle) (s : Secret) (ki ka : AccessKey)
    (horder : o.keys = [ki, ka] ∨ o.keys = [ka, ki])
    (hki : ki.status = "Inactive") (hkact : ka.status = "Active")
    (hid : ki.accessKeyId ≠ ka.accessKeyId)
    (acts : List Action) (res : RotResult)
    (hrot : rotate o s = Except.ok (acts, res)) :
    ∃ pre mid, acts = pre ++ Action.deleteKey ki.userName ki.accessKeyId
        :: Action.updateKey ka.userName ka.accessKeyId "Inactive"
        :: (mid ++ [Action.createKey s.key])
      ∧ pre.all (fun a => !a.isKeyLifecycle) = true
      ∧ mid.all (fun a => !a.isKeyLifecycle) = true := by
  obtain ⟨provActs, delActs, keysAfter, updActs, polActs, hprov, hlist, hdel,
    hup, hpol, hck, hacts, hres⟩ := rotate_ok_elim o s acts res hrot
  have hkane : ka.accessKeyId ≠ ki.accessKeyId := Ne.symm hid
  have hkist : ki.status ≠ "Active" := by simp [hki]
  have hstage : delete_stage o o.keys
      = Except.ok ([Action.deleteKey ki.userName ki.accessKeyId], [ka]) := by
    rcases horder with ho | ho
    · rw [ho] at hdel ⊢
      by_cases hf1 : o.lastUsedOk ki.accessKeyId
      · have hpick := pickE_head_inactive o ki [ka] none hf1 hkist
        by_cases hdk : o.deleteKeyOk
        · simp [delete_stage, hpick, hdk, List.filter_cons, hkane,
            show (annotate o ki).accessKeyId = ki.accessKeyId from rfl,
            show (annotate o ki).userName = ki.userName from rfl]
        · rw [show delete_stage o [ki, ka] = Except.error () by
            simp [delete_stage, hpick, hdk]] at hdel
          cases hdel
      · rw [show delete_stage o [ki, ka] = Except.error () by
          simp [delete_stage,
            pickE_flag_false o ki [ka] none (by simpa using hf1)]] at hdel
        cases hdel
    · rw [ho] at hdel ⊢
      by_cases hf1 : o.lastUsedOk ka.accessKeyId
      · by_cases hf2 : o.lastUsedOk ki.accessKeyId
        · have hpick : pick_best_candidateE o [ka, ki] none
              = Except.ok (some (annotate o ki)) := by
            rw [pickE_head_active o ka [ki] hf1 hkact]
            exact pickE_head_inactive o ki [] (some (annotate o ka)) hf2 hkist
          by_cases hdk : o.deleteKeyOk
          · simp [delete_stage, hpick, hdk, List.filter_cons, hkane,
              show (annotate o ki).accessKeyId = ki.accessKeyId from rfl,
              show (annotate o ki).userName = ki.userName from rfl]
          · rw [show delete_stage o [ka, ki] = Except.error () by
              simp [delete_stage, hpick, hdk]] at hdel
            cases hdel
        · have hpick : pick_best_candidateE o [ka, ki] none
              = Except.error () := by
            rw [pickE_head_active o ka [ki] hf1 hkact]
            exact pickE_flag_false o ki [] (some (annotate o ka))
              (by simpa using hf2)
          rw [show delete_stage o [ka, ki] = Except.error () by
            simp [delete_stage, hpick]] at hdel
          cases hdel
      · rw [show delete_stage o [ka, ki] = Except.error () by
          simp [delete_stage,
            pickE_flag_false o ka [ki] none (by simpa using hf1)]] at hdel
        cases hdel
  rw [hstage] at hdel
  injection hdel with hdel1
  have hd : delActs = [Action.deleteKey ki.userName ki.accessKeyId] :=
    (congrArg Prod.fst hdel1).symm
  have hkeysAfter : keysAfter = [ka] := (congrArg Prod.snd hdel1).symm
  rw [hkeysAfter] at hup
  have hupd := deactivate_stage_single o ka updActs hup
  refine ⟨provActs,
    update_user_group_membership o s.key (get_groups s) ++ polActs, ?_, ?_, ?_⟩
  · rw [hacts, hd, hupd]
    simp
  · exact create_user_acts_all o s.key s.config provActs hprov
  · rw [List.all_append]
    rw [group_acts_all o s.key (get_groups s),
      pol_acts_all o s.key (get_policies s) polActs hpol]
    rfl

/-- Witness for C2: a fully successful oracle over
`[{AKIA1, Inactive}, {AKIA2, Active}]`. -/
theorem claim_C2_witness :
    ∃ pre mid, [Action.deleteKey "bob" "AKIA1",
        Action.updateKey "bob" "AKIA2" "Inactive", Action.createKey "bob"]
      = pre ++ Action.deleteKey "bob" "AKIA1"
        :: Action.updateKey "bob" "AKIA2" "Inactive"
        :: (mid ++ [Action.createKey "bob"])
      ∧ pre.all (fun a => !a.isKeyLifecycle) = true
      ∧ mid.all (fun a => !a.isKeyLifecycle) = true :=
  claim_C2 oracle_c2 secret_bob
    ⟨"AKIA1", "bob", "Inactive", none⟩ ⟨"AKIA2", "bob", "Active", some 3⟩
    (Or.inl rfl) rfl rfl (by decide)
    [Action.deleteKey "bob" "AKIA1",
      Action.updateKey "bob" "AKIA2" "Inactive", Action.createKey "bob"]
    ⟨"iam", "AKIANEW", "s3cr3t"⟩ rfl

/-- C10.  On any non-empty key map `_pick_best_candidate` returns one of the
input records, never `None`; consequently, in the more-than-one-key branch of
`rotate` the `None` guard never skips deletion: every successful such run
issues a delete call. -/
theorem claim_C10 :
    (∀ keys : List AccessKey, keys ≠ [] →
      ∃ k, k ∈ keys ∧ pick_best_candidate keys = some k)
    ∧ (∀ (o : Oracle) (s : Secret) (acts : List Action) (res : RotResult),
      (o.keys.map AccessKey.accessKeyId).Nodup → 1 < o.keys.length →
      rotate o s = Except.ok (acts, res) →
      ∃ u kid, Action.deleteKey u kid ∈ acts) := by
  constructor
  · intro keys hne
    cases hp : pick_best_candidate keys with
    | none => exact absurd hp (pick_best_candidate_ne_none keys hne)
    | some r =>
      have hp' : pick_loop keys none = some r := hp
      rcases pick_loop_mem keys none r hp' with h | h
      · exact ⟨r, h, rfl⟩
      · cases h
  · intro o s acts res hnd hlen hrot
    obtain ⟨provActs, delActs, keysAfter, updActs, polActs, hprov, hlist,
      hdel, hup, hpol, hck, hacts, hres⟩ := rotate_ok_elim o s acts res hrot
    obtain ⟨k, hk, hdelActs, _, _⟩ :=
      delete_stage_ok_gt1 o o.keys hlen hnd delActs keysAfter hdel
    refine ⟨k.userName, k.accessKeyId, ?_⟩
    rw [hacts, hdelActs]
    simp

/-- Witness for C10, at the two-Active-key map and at a successful
rotation of `oracle_c5`. -/
theorem claim_C10_witness :
    (∃ k, k ∈ keys_two_active ∧ pick_best_candidate keys_two_active = some k)
    ∧ (∃ u kid, Action.deleteKey u kid ∈ [Action.deleteKey "bob" "AKIA1",
        Action.updateKey "bob" "AKIA2" "Inactive",
        Action.removeFromGroup "bob" "g1",
        Action.detachPolicy "arnX" "bob", Action.createKey "bob"]) :=
  ⟨claim_C10.1 keys_two_active (by decide),
    claim_C10.2 oracle_c5 secret_bob
      [Action.deleteKey "bob" "AKIA1",
        Action.updateKey "bob" "AKIA2" "Inactive",
        Action.removeFromGroup "bob" "g1",
        Action.detachPolicy "arnX" "bob", Action.createKey "bob"]
      ⟨"iam", "AKIANEW", "s3cr3t"⟩ (by decide) (by decide) rfl⟩

/-- Witness for C5: an oracle whose group/policy reconciliation calls all
fail while every core call succeeds; `rotate` still succeeds. -/
theorem claim_C5_witness :
    (oracle_c5.keys.map AccessKey.accessKeyId).Nodup
    ∧ (rotate oracle_c5 secret_bob).isOk = core_ok oracle_c5 secret_bob :=
  ⟨by decide, claim_C5 oracle_c5 secret_bob (by decide)⟩

/-- C7.  A scalar `groups` value `g` is reconciled exactly like the
one-element list `[g]`: the normalization at the top of
`_update_user_group_membership` makes the two calls indistinguishable. -/
theorem claim_C7 (o : Oracle) (iam_user g : String) :
    update_user_group_membership o iam_user (GroupsVal.scalar g)
      = update_user_group_membership o iam_user (GroupsVal.list [g]) := rfl

/-- C9.  `distribute` fails with the distribution-not-supported error for
every secret and every destination; it returns nothing else and performs no
service call. -/
theorem claim_C9 {α β : Type} (secret : α) (destination : β) :
    distribute secret destination
      = Except.error "IAM does not support distribution" := rfl

/-- C6.  User provisioning builds the expected tag list as
`(managedby, keydra)` followed by the entries of `config.tags`, compares it
with the user's current tags as an ordered list — overwriting via `tag_user`
whenever they differ in any way, including mere reordering, and doing
nothing when they are equal — and creates the user with the expected tags
when the lookup fails. -/
theorem claim_C6 (o : Oracle) (u : String) (opts : Option Config) :
    (o.getUserFails = false →
      o.currentTags = some (("managedby", "keydra") :: config_tags opts) →
      create_user_if_not_available o u opts = Except.ok [])
    ∧ (o.getUserFails = false →
      o.currentTags ≠ some (("managedby", "keydra") :: config_tags opts) →
      o.tagUserOk = true →
      create_user_if_not_available o u opts = Except.ok
        [Action.tagUser u (("managedby", "keydra") :: config_tags opts)])
    ∧ (o.getUserFails = true → o.createUserOk = true →
      create_user_if_not_available o u opts = Except.ok
        [Action.createUser u
          (("managedby", "keydra") :: config_tags opts)]) := by
  refine ⟨?_, ?_, ?_⟩
  · intro hg ht
    simp [create_user_if_not_available, hg, expected_tags, ht]
  · intro hg ht htag
    simp [create_user_if_not_available, hg, expected_tags, ht, htag]
  · intro hg hc
    simp [create_user_if_not_available, hg, expected_tags, hc]

/-- Witness for C6: a user whose tags are the expected ones in reversed
order gets re-tagged; a missing user gets created with the expected tags. -/
theorem claim_C6_witness :
    (create_user_if_not_available oracle_tags_order "bob" (some config_env)
      = Except.ok [Action.tagUser "bob"
        (("managedby", "keydra") :: config_tags (some config_env))])
    ∧ (create_user_if_not_available oracle_no_user "bob" (some config_env)
      = Except.ok [Action.createUser "bob"
        (("managedby", "keydra") :: config_tags (some config_env))]) :=
  ⟨(claim_C6 oracle_tags_order "bob" (some config_env)).2.1 rfl
      (by decide) rfl,
    (claim_C6 oracle_no_user "bob" (some config_env)).2.2 rfl rfl⟩

/-! ### Dict-update lemmas for `redact_result` -/

/-- `get` on a cons cell of a Python dict. -/
theorem dget_cons (p : String × PyVal) (t : List (String × PyVal))
    (k : String) :
    dget (p :: t) k = if p.1 = k then some p.2 else dget t k := by
  rcases p with ⟨a, b⟩
  by_cases hp : a = k
  · subst hp; simp [dget]
  · simp [dget, hp]

/-- `dset` on a cons cell. -/
theorem dset_cons (p : String × PyVal) (t : List (String × PyVal))
    (k : String) (v : PyVal) :
    dset (p :: t) k v = (if p.1 = k then (k, v) else p) :: dset t k v := by
  rcases p with ⟨a, b⟩
  by_cases hp : a = k
  · subst hp; simp [dset]
  · simp [dset, hp]

/-- Setting a present key makes `get` return the new value. -/
theorem dget_dset_same (d : List (String × PyVal)) (k : String) (v : PyVal) :
    ∀ w, dget d k = some w → dget (dset d k v) k = some v := by
  induction d with
  | nil => intro w h; simp [dget] at h
  | cons p t ih =>
    intro w h
    rw [dget_cons] at h
    rw [dset_cons, dget_cons]
    by_cases hp : p.1 = k
    · simp [hp]
    · simp only [hp, if_false]
      rw [if_neg hp] at h
      exact ih w h

/-- Setting key `k` leaves every other key's value unchanged. -/
theorem dget_dset_other (d : List (String × PyVal)) (k : String) (v : PyVal)
    (k2 : String) (hne : k2 ≠ k) :
    dget (dset d k v) k2 = dget d k2 := by
  induction d with
  | nil => simp [dget, dset]
  | cons p t ih =>
    rw [dset_cons, dget_cons, dget_cons]
    by_cases hp : p.1 = k
    · have hk2 : ¬(k = k2) := fun he => hne he.symm
      have hp2 : ¬(p.1 = k2) := by rw [hp]; exact hk2
      simp [hp, hk2, hp2, ih]
    · by_cases hq : p.1 = k2
      · simp [hp, hq, hne]
      · simp [hp, hq, ih]

/-- C8.  `redact_result` masks `result['value']['secret']` with `'***'` when
both the `value` map and its `secret` field are present, touches no other
field of the value map and no other field of the envelope, and returns the
envelope unchanged when `value` is absent or has no `secret` field. -/
theorem claim_C8 (result : List (String × PyVal)) :
    (∀ v, dget result "value" = some (PyVal.dict v) →
      (dget v "secret").isSome = true →
      dget (redact_result result) "value"
          = some (PyVal.dict (dset v "secret" (PyVal.str "***")))
        ∧ dget (dset v "secret" (PyVal.str "***")) "secret"
          = some (PyVal.str "***")
        ∧ (∀ k2, k2 ≠ "secret" →
          dget (dset v "secret" (PyVal.str "***")) k2 = dget v k2)
        ∧ (∀ k1, k1 ≠ "value" →
          dget (redact_result result) k1 = dget result k1))
    ∧ (dget result "value" = none → redact_result result = result)
    ∧ (∀ v, dget result "value" = some (PyVal.dict v) →
      dget v "secret" = none → redact_result result = result) := by
  refine ⟨?_, ?_, ?_⟩
  · intro v hv hsec
    have hred : redact_result result
        = dset result "value"
          (PyVal.dict (dset v "secret" (PyVal.str "***"))) := by
      simp [redact_result, hv, hsec]
    obtain ⟨w, hw⟩ := Option.isSome_iff_exists.mp hsec
    refine ⟨?_, ?_, ?_, ?_⟩
    · rw [hred]
      exact dget_dset_same result "value" _ (PyVal.dict v) hv
    · exact dget_dset_same v "secret" _ w hw
    · intro k2 hk2
      exact dget_dset_other v "secret" _ k2 hk2
    · intro k1 hk1
      rw [hred]
      exact dget_dset_other result "value" _ k1 hk1
  · intro hv
    simp [redact_result, hv]
  · intro v hv hsec
    simp [redact_result, hv, hsec]

/-- Witness for C8, at
`{value: {secret: "abc", key: "AKIAEXAMPLE"}, status: "ok"}`. -/
theorem claim_C8_witness :
    dget (redact_result result_ex) "value"
        = some (PyVal.dict (dset [("secret", PyVal.str "abc"),
          ("key", PyVal.str "AKIAEXAMPLE")] "secret" (PyVal.str "***")))
      ∧ dget (dset [("secret", PyVal.str "abc"),
          ("key", PyVal.str "AKIAEXAMPLE")] "secret" (PyVal.str "***"))
          "secret" = some (PyVal.str "***")
      ∧ (∀ k2, k2 ≠ "secret" →
        dget (dset [("secret", PyVal.str "abc"),
          ("key", PyVal.str "AKIAEXAMPLE")] "secret" (PyVal.str "***")) k2
          = dget [("secret", PyVal.str "abc"),
            ("key", PyVal.str "AKIAEXAMPLE")] k2)
      ∧ (∀ k1, k1 ≠ "value" →
        dget (redact_result result_ex) k1 = dget result_ex k1) :=
  (claim_C8 result_ex).1
    [("secret", PyVal.str "abc"), ("key", PyVal.str "AKIAEXAMPLE")] rfl rfl

/-! ### `validate_spec` -/

/-- The per-option check passes exactly when every present and truthy value
has the expected runtime type. -/
theorem check_option_none_iff (cfg : List (String × PyVal)) (oname : String)
    (otype : PyType) :
    check_option cfg oname otype = none
      ↔ ∀ v, dget cfg oname = some v → v.truthy = true →
        v.typeOf = otype := by
  cases hv : dget cfg oname with
  | none =>
    have hco : check_option cfg oname otype = none := by
      unfold check_option
      rw [hv]
    rw [hco]
    simp only [true_iff]
    intro w hw _
    cases hw
  | some v =>
    have hco : check_option cfg oname otype
        = (if (v.truthy && !(v.typeOf == otype)) = true
          then some (false, oname ++ " must be a " ++ pyTypeName otype)
          else none) := by
      unfold check_option
      rw [hv]
    rw [hco]
    constructor
    · intro h w hw htr
      injection hw with hw2
      subst hw2
      by_contra hc
      rw [if_pos (by simp [htr, hc])] at h
      cases h
    · intro hall
      by_cases ht : v.truthy = true
      · have hty := hall v rfl ht
        rw [if_neg (by simp [hty])]
      · have ht' : v.truthy = false := by
          cases hv3 : v.truthy
          · rfl
          · exact absurd hv3 ht
        rw [if_neg (by simp [ht'])]

/-- A firing per-option check always reports `false`. -/
theorem check_option_some_false (cfg : List (String × PyVal))
    (oname : String) (otype : PyType) (r : Bool × String)
    (h : check_option cfg oname otype = some r) : r.1 = false := by
  cases hv : dget cfg oname with
  | none =>
    have hco : check_option cfg oname otype = none := by
      unfold check_option
      rw [hv]
    rw [hco] at h
    cases h
  | some v =>
    have hco : check_option cfg oname otype
        = (if (v.truthy && !(v.typeOf == otype)) = true
          then some (false, oname ++ " must be a " ++ pyTypeName otype)
          else none) := by
      unfold check_option
      rw [hv]
    rw [hco] at h
    by_cases hc : (v.truthy && !(v.typeOf == otype)) = true
    · rw [if_pos hc] at h
      injection h with h2
      rw [← h2]
    · rw [if_neg hc] at h
      cases h

/-- A present, truthy, wrongly-typed option makes its check fire. -/
theorem check_option_fires (cfg : List (String × PyVal)) (oname : String)
    (otype : PyType) (v : PyVal) (h1 : dget cfg oname = some v)
    (h2 : v.truthy = true) (h3 : v.typeOf ≠ otype) :
    check_option cfg oname otype
      = some (false, oname ++ " must be a " ++ pyTypeName otype) := by
  have hco : check_option cfg oname otype
      = (if (v.truthy && !(v.typeOf == otype)) = true
        then some (false, oname ++ " must be a " ++ pyTypeName otype)
        else none) := by
    unfold check_option
    rw [h1]
  rw [hco, if_pos (by simp [h2, h3])]

/-- Counterexample to C3 as stated: in
`spec_falsy_tags`, `config.tags` is present and is a list — not a mapping —
yet `validate_spec` accepts the spec, because the empty list is falsy and
the falsiness guard skips the type check. -/
theorem claim_C3_counterexample :
    dget spec_falsy_tags "config"
        = some (PyVal.dict [("tags", PyVal.list [])])
      ∧ dget [("tags", PyVal.list [])] "tags" = some (PyVal.list [])
      ∧ (PyVal.list []).typeOf ≠ PyType.dict
      ∧ validate_spec (true, "base ok") spec_falsy_tags
        = (true, "All good!") :=
  ⟨rfl, rfl, by decide, rfl⟩

/-- C3 (amended).  With base validation passing: a spec with no `config`
block is accepted; with a `config` dict, `validate_spec` reports `false`
whenever `tags` is present, truthy and not a mapping, whenever `groups` or
`policies` is present, truthy and not a sequence, or whenever `config` holds
a key outside `tags`/`groups`/`policies`; when no such violation exists —
in particular when a wrongly-typed option is merely falsy — it returns
`(true, 'All good!')`. -/
theorem claim_C3_amended (base : Bool × String)
    (spec : List (String × PyVal)) (hbase : base.1 = true) :
    (dget spec "config" = none →
      validate_spec base spec = (true, "All good!"))
    ∧ (∀ cfg, dget spec "config" = some (PyVal.dict cfg) →
      (∀ v, dget cfg "tags" = some v → v.truthy = true →
        v.typeOf ≠ PyType.dict → (validate_spec base spec).1 = false)
      ∧ (∀ v, dget cfg "groups" = some v → v.truthy = true →
        v.typeOf ≠ PyType.list → (validate_spec base spec).1 = false)
      ∧ (∀ v, dget cfg "policies" = some v → v.truthy = true →
        v.typeOf ≠ PyType.list → (validate_spec base spec).1 = false)
      ∧ (∀ k, k ∈ cfg.map Prod.fst → k ∉ ["tags", "groups", "policies"] →
        (validate_spec base spec).1 = false)
      ∧ ((∀ v, dget cfg "tags" = some v → v.truthy = true →
          v.typeOf = PyType.dict) →
        (∀ v, dget cfg "groups" = some v → v.truthy = true →
          v.typeOf = PyType.list) →
        (∀ v, dget cfg "policies" = some v → v.truthy = true →
          v.typeOf = PyType.list) →
        (∀ k, k ∈ cfg.map Prod.fst → k ∈ ["tags", "groups", "policies"]) →
        validate_spec base spec = (true, "All good!"))) := by
  constructor
  · intro hnone
    simp [validate_spec, hbase, hnone]
  · intro cfg hcfg
    refine ⟨?_, ?_, ?_, ?_, ?_⟩
    · intro v hv htr hty
      have hr := check_option_fires cfg "tags" PyType.dict v hv htr hty
      simp [validate_spec, hbase, hcfg, hr]
    · intro v hv htr hty
      cases hc1 : check_option cfg "tags" PyType.dict with
      | some r =>
        have := check_option_some_false cfg "tags" PyType.dict r hc1
        simp [validate_spec, hbase, hcfg, hc1, this]
      | none =>
        have hr := check_option_fires cfg "groups" PyType.list v hv htr hty
        simp [validate_spec, hbase, hcfg, hc1, hr]
    · intro v hv htr hty
      cases hc1 : check_option cfg "tags" PyType.dict with
      | some r =>
        have := check_option_some_false cfg "tags" PyType.dict r hc1
        simp [validate_spec, hbase, hcfg, hc1, this]
      | none =>
        cases hc2 : check_option cfg "groups" PyType.list with
        | some r =>
          have := check_option_some_false cfg "groups" PyType.list r hc2
          simp [validate_spec, hbase, hcfg, hc1, hc2, this]
        | none =>
          have hr :=
            check_option_fires cfg "policies" PyType.list v hv htr hty
          simp [validate_spec, hbase, hcfg, hc1, hc2, hr]
    · intro k hk hkout
      cases hc1 : check_option cfg "tags" PyType.dict with
      | some r =>
        have := check_option_some_false cfg "tags" PyType.dict r hc1
        simp [validate_spec, hbase, hcfg, hc1, this]
      | none =>
        cases hc2 : check_option cfg "groups" PyType.list with
        | some r =>
          have := check_option_some_false cfg "groups" PyType.list r hc2
          simp [validate_spec, hbase, hcfg, hc1, hc2, this]
        | none =>
          cases hc3 : check_option cfg "policies" PyType.list with
          | some r =>
            have := check_option_some_false cfg "policies" PyType.list r hc3
            simp [validate_spec, hbase, hcfg, hc1, hc2, hc3, this]
          | none =>
            have hku : k ∈ (cfg.map (fun p => p.1)).dedup.filter
                (fun k0 =>
                  !((allowed_options.map (fun p => p.1)).contains k0)) := by
              rw [List.mem_filter]
              refine ⟨List.mem_dedup.mpr hk, ?_⟩
              simp only [allowed_options, List.map_cons, List.map_nil]
              simpa using hkout
            have hne : (cfg.map (fun p => p.1)).dedup.filter
                (fun k0 =>
                  !((allowed_options.map (fun p => p.1)).contains k0))
                ≠ [] := List.ne_nil_of_mem hku
            have hemp : ((cfg.map (fun p => p.1)).dedup.filter
                (fun k0 =>
                  !((allowed_options.map (fun p => p.1)).contains k0))
                ).isEmpty = false := by
              cases he : ((cfg.map (fun p => p.1)).dedup.filter
                  (fun k0 =>
                    !((allowed_options.map (fun p => p.1)).contains k0))) with
              | nil => exact absurd he hne
              | cons a t => rfl
            simp [validate_spec, hbase, hcfg, hc1, hc2, hc3]
            rw [hemp]
            simp
    · intro h1 h2 h3 hkeys
      have hc1 : check_option cfg "tags" PyType.dict = none :=
        (check_option_none_iff cfg "tags" PyType.dict).mpr h1
      have hc2 : check_option cfg "groups" PyType.list = none :=
        (check_option_none_iff cfg "groups" PyType.list).mpr h2
      have hc3 : check_option cfg "policies" PyType.list = none :=
        (check_option_none_iff cfg "policies" PyType.list).mpr h3
      simp [validate_spec, hbase, hcfg, hc1, hc2, hc3]
      intro x xv hxv
      have hx : x ∈ List.map Prod.fst cfg := List.mem_map_of_mem Prod.fst hxv
      have hx2 := hkeys x hx
      simp at hx2
      rcases hx2 with h | h | h
      · subst h; exact ⟨PyType.dict, by simp [allowed_options]⟩
      · subst h; exact ⟨PyType.list, by simp [allowed_options]⟩
      · subst h; exact ⟨PyType.list, by simp [allowed_options]⟩

/-- Witness for the amended C3, at a spec whose `config` holds one truthy,
correctly-typed `groups` sequence. -/
theorem claim_C3_witness :
    validate_spec (true, "base ok") spec_good = (true, "All good!") :=
  ((claim_C3_amended (true, "base ok") spec_good rfl).2
      [("groups", PyVal.list [PyVal.str "g1"])] rfl).2.2.2.2
    (by intro v hv _; simp [dget] at hv)
    (by
      intro v hv _
      have hv2 : some (PyVal.list [PyVal.str "g1"]) = some v := hv
      injection hv2 with h
      rw [← h]
      rfl)
    (by intro v hv _; simp [dget] at hv)
    (by intro k hk; simp at hk; subst hk; decide)

end KeydraIam
